import Mathlib

/-! The in-memory store of `graph/store.go`

A shallow embedding of the `memoryStore` of the GraphQL scaffold: the five
collections, the identifier counter and every method of the store, followed by
the properties of the store that the specification states.

Modelling conventions

* A Go `map[string]*T` is a finite map with pairwise distinct keys (`GoMap`).
  The pointers held by the maps are never nil and the objects behind the parent
  references (`Course.Subject`, `Unit.Course`, `Lesson.Unit`) are never written
  after they have been stored, so the entities are kept by value; a write
  through a stored pointer (`sub.State = ...`, `l.Status = ...`) is a write to
  the entry of the map that holds the object.
* `for ... := range m` visits the entries of a map in an order that Go leaves
  unspecified. Every method that ranges over a map takes the order as an extra
  argument `ord` (see `rangeOrder`); properties are stated for every `ord`.
* The properties of the store take each method as one atomic step. The mutex
  and the interleaving of concurrent calls are modelled apart, on the sequence
  of mutex operations and of reads and writes of the shared variables that each
  method makes (`Op.actions`).
* Go's `int` is the 64-bit two's complement integer: the counter `nextID` is an
  `Int` that `next` increments with `wrapInt`, so the increment of the largest
  value `maxInt` gives the smallest one.
* A Go result `(*T, error)` of which exactly one component is non-nil is an
  `Except String T`; a nullable pointer is an `Option`.
-/

namespace graph

/-! ## The entities of package `model` -/

namespace model

/-- Modelled from the spec: `model.Subject` of the generated package `graph/model`
(not part of the sources at hand); the fields are those `store.go` writes. -/
structure Subject where
  ID : String
  Name : String
deriving DecidableEq, Repr

/-- Modelled from the spec: `model.Course`; `Subject` is a pointer, so it may be nil. -/
structure Course where
  ID : String
  Subject : Option Subject
  Grade : Int
  Title : String
deriving DecidableEq, Repr

/-- Modelled from the spec: `model.Unit`; `Course` is a pointer, so it may be nil. -/
structure Unit where
  ID : String
  Course : Option Course
  Title : String
  Order : Int
deriving DecidableEq, Repr

/-- Modelled from the spec: `model.Lesson`; `Unit` and `Status` are pointers. -/
structure Lesson where
  ID : String
  Unit : Option Unit
  Title : String
  Order : Int
  Version : Int
  Status : Option String
deriving DecidableEq, Repr

/-- Modelled from the spec: `model.Submission`. -/
structure Submission where
  ID : String
  State : String
deriving DecidableEq, Repr

/-- Modelled from the spec: `model.User`, as far as `CreateUser` fills it. -/
structure User where
  ID : String
  Role : String
deriving DecidableEq, Repr

/-- Modelled from the spec: `model.StudentProfile`, as far as `CreateStudentProfile` fills it. -/
structure StudentProfile where
  ID : String
  Grade : Int
  Age : Int
deriving DecidableEq, Repr

/-- Modelled from the spec: `model.TextBlock`. -/
structure TextBlock where
  ID : String
  Text : String
  Order : Int
deriving DecidableEq, Repr

/-- Modelled from the spec: `model.ImageBlock`. -/
structure ImageBlock where
  ID : String
  URL : String
  Alt : Option String
  Order : Int
deriving DecidableEq, Repr

/-- Modelled from the spec: `model.AudioBlock`. -/
structure AudioBlock where
  ID : String
  URL : String
  DurationSec : Option Int
  Order : Int
deriving DecidableEq, Repr

/-- Modelled from the spec: `model.VideoBlock`. -/
structure VideoBlock where
  ID : String
  URL : String
  DurationSec : Option Int
  Order : Int
deriving DecidableEq, Repr

/-- Modelled from the spec: `model.Quiz`, as far as `CreateQuiz` fills it. -/
structure Quiz where
  ID : String
  LessonID : String
deriving DecidableEq, Repr

/-- Modelled from the spec: `model.Progress`, as far as the store fills it. -/
structure Progress where
  ID : String
deriving DecidableEq, Repr

/-- Modelled from the spec: `model.Attempt`, as far as the store fills it. -/
structure Attempt where
  ID : String
deriving DecidableEq, Repr

/-- Modelled from the spec: `model.SignUpInput`; only `Role` is read. -/
structure SignUpInput where
  Role : String
deriving DecidableEq, Repr

/-- Modelled from the spec: `model.CreateStudentProfileInput`. -/
structure CreateStudentProfileInput where
  Grade : Int
  Age : Int
deriving DecidableEq, Repr

/-- Modelled from the spec: `model.CreateCourseInput`. -/
structure CreateCourseInput where
  SubjectID : String
  Grade : Int
  Title : String
deriving DecidableEq, Repr

/-- Modelled from the spec: `model.CreateUnitInput`. -/
structure CreateUnitInput where
  CourseID : String
  Title : String
deriving DecidableEq, Repr

/-- Modelled from the spec: `model.CreateLessonInput`. -/
structure CreateLessonInput where
  UnitID : String
  Title : String
deriving DecidableEq, Repr

/-- Modelled from the spec: `model.TextBlockInput`. -/
structure TextBlockInput where
  Text : String
deriving DecidableEq, Repr

/-- Modelled from the spec: `model.ImageBlockInput`. -/
structure ImageBlockInput where
  URL : String
  Alt : Option String
deriving DecidableEq, Repr

/-- Modelled from the spec: `model.AudioBlockInput`. -/
structure AudioBlockInput where
  URL : String
  DurationSec : Option Int
deriving DecidableEq, Repr

/-- Modelled from the spec: `model.VideoBlockInput`. -/
structure VideoBlockInput where
  URL : String
  DurationSec : Option Int
deriving DecidableEq, Repr

/-- Modelled from the spec: `model.QuestionInput`; the store never reads it. -/
structure QuestionInput where
  Prompt : String
deriving DecidableEq, Repr

/-- Modelled from the spec: `model.SubmitQuizInput`; the store never reads it. -/
structure SubmitQuizInput where
  QuizID : String
deriving DecidableEq, Repr

end model

/-! ## Go maps with string keys -/

/-- Write `v` at key `k` of an association list: the entry of `k` is replaced
where it stands, or added at the end when the key is new. -/
def assocSet {V : Type} (k : String) (v : V) : List (String × V) → List (String × V)
  | [] => [(k, v)]
  | (k1, v1) :: r => if k1 = k then (k, v) :: r else (k1, v1) :: assocSet k v r

/-- The value an association list holds for `k`, if any. -/
def assocGet {V : Type} (k : String) : List (String × V) → Option V
  | [] => none
  | (k1, v1) :: r => if k1 = k then some v1 else assocGet k r

/-- A Go `map[string]*V`: finitely many entries under pairwise distinct keys. -/
structure GoMap (V : Type) where
  entries : List (String × V)
  nodup : (entries.map Prod.fst).Nodup

namespace GoMap

variable {V : Type}

/-- The map literal `map[string]*V{}`. -/
def empty : GoMap V := ⟨[], List.nodup_nil⟩

/-- The index expression `m[k]`: `none` stands for the nil pointer of an absent key. -/
def lookup (m : GoMap V) (k : String) : Option V := assocGet k m.entries

/-- The assignment `m[k] = v`. -/
def set (m : GoMap V) (k : String) (v : V) : GoMap V where
  entries := assocSet k v m.entries
  nodup := by
    have key : ∀ l : List (String × V), (l.map Prod.fst).Nodup →
        ((assocSet k v l).map Prod.fst).Nodup ∧
          ∀ a, a ∈ (assocSet k v l).map Prod.fst → a = k ∨ a ∈ l.map Prod.fst := by
      intro l
      induction l with
      | nil => intro _; simp [assocSet]
      | cons e r ih =>
        intro h
        obtain ⟨k1, v1⟩ := e
        rw [List.map_cons, List.nodup_cons] at h
        by_cases hk : k1 = k
        · subst hk
          simp only [assocSet, if_true, List.map_cons, List.nodup_cons]
          exact ⟨⟨h.1, h.2⟩, fun a ha => by simpa using ha⟩
        · obtain ⟨ih1, ih2⟩ := ih h.2
          simp only [assocSet, if_neg hk, List.map_cons, List.nodup_cons, List.mem_cons]
          refine ⟨⟨fun hm => ?_, ih1⟩, fun a ha => ?_⟩
          · rcases ih2 k1 hm with h3 | h3
            · exact hk h3
            · exact h.1 h3
          · rcases ha with h3 | h3
            · exact Or.inr (Or.inl h3)
            · rcases ih2 a h3 with h4 | h4
              · exact Or.inl h4
              · exact Or.inr (Or.inr h4)
    exact (key m.entries m.nodup).1

/-- The keys of the map. -/
def keys (m : GoMap V) : List String := m.entries.map Prod.fst

/-- The objects held by the map. -/
def values (m : GoMap V) : List V := m.entries.map Prod.snd

/-- The builtin `len(m)`. -/
def len (m : GoMap V) : Nat := m.entries.length

end GoMap

/-- One order of visiting the elements of `l`, chosen by the numbers of `ord`:
the head of `l` is put at position `c` (modulo the number of places) of the
order chosen for the tail. With no numbers left the elements keep their order. -/
def rangeOrder {α : Type} : List Nat → List α → List α
  | _, [] => []
  | [], x :: xs => x :: xs
  | c :: cs, x :: xs => (rangeOrder cs xs).insertIdx (c % (xs.length + 1)) x

/-- The entries of a map in the order a `for ... := range m` visits them. -/
def GoMap.range {V : Type} (ord : List Nat) (m : GoMap V) : List (String × V) :=
  rangeOrder ord m.entries

/-! ## The store -/

/-- The store of `store.go`: five collections and the identifier counter. -/
structure memoryStore where
  subjects : GoMap model.Subject
  courses : GoMap model.Course
  units : GoMap model.Unit
  lessons : GoMap model.Lesson
  submissions : GoMap model.Submission
  nextID : Int

/-- The constructor `newMemoryStore`: empty collections, counter 1, one seeded subject. -/
def newMemoryStore : memoryStore :=
  let s : memoryStore :=
    { subjects := GoMap.empty
      courses := GoMap.empty
      units := GoMap.empty
      lessons := GoMap.empty
      submissions := GoMap.empty
      nextID := 1 }
  let subj : model.Subject := { ID := "1", Name := "Math" }
  { s with subjects := s.subjects.set subj.ID subj }

/-- The largest value of Go's `int`, 64 bits wide. -/
def maxInt : Int := 2 ^ 63 - 1

/-- The value Go's `int` arithmetic gives for the mathematical result `x`: `x`
reduced to the range from `-2^63` to `2^63 - 1` (two's complement wrap-around). -/
def wrapInt (x : Int) : Int := (x + 2 ^ 63) % 2 ^ 64 - 2 ^ 63

/-- The helper `ptrString`. -/
def ptrString (s : String) : Option String := some s

namespace memoryStore

/-- The method `next`: hands out the counter rendered by `%d` and increments it
(`s.nextID++`, which wraps around at `maxInt`). -/
def next (s : memoryStore) : memoryStore × String :=
  let id := s.nextID
  ({ s with nextID := wrapInt (s.nextID + 1) }, toString id)

/-- The method `CreateUser`. -/
def CreateUser (s : memoryStore) (input : model.SignUpInput) : memoryStore × model.User :=
  let (s, id) := s.next
  (s, { ID := id, Role := input.Role })

/-- The method `CreateStudentProfile`. -/
def CreateStudentProfile (s : memoryStore) (input : model.CreateStudentProfileInput) :
    memoryStore × model.StudentProfile :=
  let (s, id) := s.next
  (s, { ID := id, Grade := input.Grade, Age := input.Age })

/-- The method `ListSubjects`. -/
def ListSubjects (s : memoryStore) (ord : List Nat) : List model.Subject :=
  (s.subjects.range ord).foldl (fun out e => out ++ [e.2]) []

/-- The method `CreateCourse`. -/
def CreateCourse (s : memoryStore) (input : model.CreateCourseInput) :
    memoryStore × Except String model.Course :=
  let (s, id) := s.next
  match s.subjects.lookup input.SubjectID with
  | none => (s, .error "subject not found")
  | some subj =>
    let c : model.Course :=
      { ID := id, Subject := some subj, Grade := input.Grade, Title := input.Title }
    ({ s with courses := s.courses.set id c }, .ok c)

/-- The loop body of `ListCourses`: `true` when the course is appended, `false`
when one of the two `continue` statements is taken. -/
def ListCourses.keep (grade : Option Int) (subjectID : Option String) (c : model.Course) : Bool :=
  if (match grade with
      | some g => c.Grade != g
      | none => false) then false
  else if (match subjectID, c.Subject with
      | some sid, some subj => subj.ID != sid
      | _, _ => false) then false
  else true

/-- The method `ListCourses`. -/
def ListCourses (s : memoryStore) (ord : List Nat) (grade : Option Int)
    (subjectID : Option String) : List model.Course :=
  (s.courses.range ord).foldl
    (fun out e => if ListCourses.keep grade subjectID e.2 then out ++ [e.2] else out) []

/-- The method `GetCourse`. -/
def GetCourse (s : memoryStore) (id : String) : Except String (Option model.Course) :=
  match s.courses.lookup id with
  | none => .ok none
  | some c => .ok (some c)

/-- The method `CreateUnit`. -/
def CreateUnit (s : memoryStore) (input : model.CreateUnitInput) :
    memoryStore × Except String model.Unit :=
  let (s, id) := s.next
  match s.courses.lookup input.CourseID with
  | none => (s, .error "course not found")
  | some c =>
    let u : model.Unit := { ID := id, Course := some c, Title := input.Title, Order := 0 }
    ({ s with units := s.units.set id u }, .ok u)

/-- The method `ListUnits`. -/
def ListUnits (s : memoryStore) (ord : List Nat) (courseID : String) : List model.Unit :=
  (s.units.range ord).foldl
    (fun out e =>
      if (match e.2.Course with
          | some c => c.ID == courseID
          | none => false) then out ++ [e.2] else out) []

/-- The method `CreateLesson`. -/
def CreateLesson (s : memoryStore) (input : model.CreateLessonInput) :
    memoryStore × Except String model.Lesson :=
  let (s, id) := s.next
  match s.units.lookup input.UnitID with
  | none => (s, .error "unit not found")
  | some u =>
    let l : model.Lesson :=
      { ID := id, Unit := some u, Title := input.Title, Order := 0, Version := 1, Status := none }
    ({ s with lessons := s.lessons.set id l }, .ok l)

/-- The method `ListLessons`. -/
def ListLessons (s : memoryStore) (ord : List Nat) (unitID : String) : List model.Lesson :=
  (s.lessons.range ord).foldl
    (fun out e =>
      if (match e.2.Unit with
          | some u => u.ID == unitID
          | none => false) then out ++ [e.2] else out) []

/-- The method `GetLesson`. -/
def GetLesson (s : memoryStore) (id : String) : Except String (Option model.Lesson) :=
  .ok (s.lessons.lookup id)

/-- The method `AddTextBlock`. -/
def AddTextBlock (s : memoryStore) (_lessonID : String) (input : model.TextBlockInput) :
    memoryStore × Except String model.TextBlock :=
  let (s, id) := s.next
  (s, .ok { ID := id, Text := input.Text, Order := 0 })

/-- The method `AddImageBlock`. -/
def AddImageBlock (s : memoryStore) (_lessonID : String) (input : model.ImageBlockInput) :
    memoryStore × Except String model.ImageBlock :=
  let (s, id) := s.next
  (s, .ok { ID := id, URL := input.URL, Alt := input.Alt, Order := 0 })

/-- The method `AddAudioBlock`. -/
def AddAudioBlock (s : memoryStore) (_lessonID : String) (input : model.AudioBlockInput) :
    memoryStore × Except String model.AudioBlock :=
  let (s, id) := s.next
  (s, .ok { ID := id, URL := input.URL, DurationSec := input.DurationSec, Order := 0 })

/-- The method `AddVideoBlock`. -/
def AddVideoBlock (s : memoryStore) (_lessonID : String) (input : model.VideoBlockInput) :
    memoryStore × Except String model.VideoBlock :=
  let (s, id) := s.next
  (s, .ok { ID := id, URL := input.URL, DurationSec := input.DurationSec, Order := 0 })

/-- The method `CreateQuiz`. -/
def CreateQuiz (s : memoryStore) (lessonID : String) (_questions : List model.QuestionInput) :
    memoryStore × Except String model.Quiz :=
  let (s, id) := s.next
  (s, .ok { ID := id, LessonID := lessonID })

/-- The method `SubmitForReview`. -/
def SubmitForReview (s : memoryStore) (_lessonID : String) :
    memoryStore × Except String model.Submission :=
  let (s, id) := s.next
  let sub : model.Submission := { ID := id, State := "SUBMITTED" }
  ({ s with submissions := s.submissions.set id sub }, .ok sub)

/-- The method `ApproveSubmission`: the first submission the range visits is
written through its pointer and returned. -/
def ApproveSubmission (s : memoryStore) (ord : List Nat) (_lessonID : String) :
    memoryStore × Except String model.Submission :=
  match s.submissions.range ord with
  | (k, sub) :: _ =>
    let sub : model.Submission := { sub with State := "APPROVED" }
    ({ s with submissions := s.submissions.set k sub }, .ok sub)
  | [] => (s, .error "no submission")

/-- The method `PublishLesson`: the stored lesson is written through its pointer. -/
def PublishLesson (s : memoryStore) (lessonID : String) :
    memoryStore × Except String model.Lesson :=
  match s.lessons.lookup lessonID with
  | some l =>
    let l : model.Lesson := { l with Status := ptrString "PUBLISHED" }
    ({ s with lessons := s.lessons.set lessonID l }, .ok l)
  | none => (s, .error "lesson not found")

/-- The method `StartLesson`. -/
def StartLesson (s : memoryStore) (_lessonID : String) :
    memoryStore × Except String model.Progress :=
  let (s, id) := s.next
  (s, .ok { ID := id })

/-- The method `CompleteLesson`. -/
def CompleteLesson (s : memoryStore) (_lessonID : String) (_score : Option Int) :
    memoryStore × Except String model.Progress :=
  let (s, id) := s.next
  (s, .ok { ID := id })

/-- The method `SubmitQuiz`. -/
def SubmitQuiz (s : memoryStore) (_input : model.SubmitQuizInput) :
    memoryStore × Except String model.Attempt :=
  let (s, id) := s.next
  (s, .ok { ID := id })

/-- The method `RecommendedLessons`. -/
def RecommendedLessons (_s : memoryStore) (_grade : Int) : List model.Lesson := []

/-- The method `SearchLessons`. -/
def SearchLessons (_s : memoryStore) (_q : String) (_grade : Option Int) : List model.Lesson := []

/-- The method `GetProgressByLesson`. -/
def GetProgressByLesson (_s : memoryStore) (_lessonID : String) : Except String model.Progress :=
  .ok { ID := "1" }

/-- The method `ListSubmissions`. -/
def ListSubmissions (s : memoryStore) (ord : List Nat) (_state : Option String) :
    List model.Submission :=
  (s.submissions.range ord).foldl (fun out e => out ++ [e.2]) []

end memoryStore

/-! ## Operations and reachable states -/

/-- One call of a method of the store, with its arguments; a method that ranges
over a map also carries the order `ord` of that range. -/
inductive Op where
  | next
  | CreateUser (input : model.SignUpInput)
  | CreateStudentProfile (input : model.CreateStudentProfileInput)
  | ListSubjects (ord : List Nat)
  | CreateCourse (input : model.CreateCourseInput)
  | ListCourses (ord : List Nat) (grade : Option Int) (subjectID : Option String)
  | GetCourse (id : String)
  | CreateUnit (input : model.CreateUnitInput)
  | ListUnits (ord : List Nat) (courseID : String)
  | CreateLesson (input : model.CreateLessonInput)
  | ListLessons (ord : List Nat) (unitID : String)
  | GetLesson (id : String)
  | AddTextBlock (lessonID : String) (input : model.TextBlockInput)
  | AddImageBlock (lessonID : String) (input : model.ImageBlockInput)
  | AddAudioBlock (lessonID : String) (input : model.AudioBlockInput)
  | AddVideoBlock (lessonID : String) (input : model.VideoBlockInput)
  | CreateQuiz (lessonID : String) (questions : List model.QuestionInput)
  | SubmitForReview (lessonID : String)
  | ApproveSubmission (ord : List Nat) (lessonID : String)
  | PublishLesson (lessonID : String)
  | StartLesson (lessonID : String)
  | CompleteLesson (lessonID : String) (score : Option Int)
  | SubmitQuiz (input : model.SubmitQuizInput)
  | RecommendedLessons (grade : Int)
  | SearchLessons (q : String) (grade : Option Int)
  | GetProgressByLesson (lessonID : String)
  | ListSubmissions (ord : List Nat) (state : Option String)
deriving DecidableEq, Repr

/-- The error component of a Go result `(*T, error)`; `none` is the nil error. -/
def errorOf {T : Type} : Except String T → Option String
  | .error e => some e
  | .ok _ => none

namespace Op

/-- The store after the call. The methods that only read leave it as it is. -/
def apply (s : memoryStore) : Op → memoryStore
  | .next => s.next.1
  | .CreateUser input => (s.CreateUser input).1
  | .CreateStudentProfile input => (s.CreateStudentProfile input).1
  | .ListSubjects _ => s
  | .CreateCourse input => (s.CreateCourse input).1
  | .ListCourses _ _ _ => s
  | .GetCourse _ => s
  | .CreateUnit input => (s.CreateUnit input).1
  | .ListUnits _ _ => s
  | .CreateLesson input => (s.CreateLesson input).1
  | .ListLessons _ _ => s
  | .GetLesson _ => s
  | .AddTextBlock lessonID input => (s.AddTextBlock lessonID input).1
  | .AddImageBlock lessonID input => (s.AddImageBlock lessonID input).1
  | .AddAudioBlock lessonID input => (s.AddAudioBlock lessonID input).1
  | .AddVideoBlock lessonID input => (s.AddVideoBlock lessonID input).1
  | .CreateQuiz lessonID questions => (s.CreateQuiz lessonID questions).1
  | .SubmitForReview lessonID => (s.SubmitForReview lessonID).1
  | .ApproveSubmission ord lessonID => (s.ApproveSubmission ord lessonID).1
  | .PublishLesson lessonID => (s.PublishLesson lessonID).1
  | .StartLesson lessonID => (s.StartLesson lessonID).1
  | .CompleteLesson lessonID score => (s.CompleteLesson lessonID score).1
  | .SubmitQuiz input => (s.SubmitQuiz input).1
  | .RecommendedLessons _ => s
  | .SearchLessons _ _ => s
  | .GetProgressByLesson _ => s
  | .ListSubmissions _ _ => s

/-- The error the call returns; `none` when the error is nil or the method has
no error result. -/
def error (s : memoryStore) : Op → Option String
  | .next => none
  | .CreateUser _ => none
  | .CreateStudentProfile _ => none
  | .ListSubjects _ => none
  | .CreateCourse input => errorOf (s.CreateCourse input).2
  | .ListCourses _ _ _ => none
  | .GetCourse id => errorOf (s.GetCourse id)
  | .CreateUnit input => errorOf (s.CreateUnit input).2
  | .ListUnits _ _ => none
  | .CreateLesson input => errorOf (s.CreateLesson input).2
  | .ListLessons _ _ => none
  | .GetLesson id => errorOf (s.GetLesson id)
  | .AddTextBlock lessonID input => errorOf (s.AddTextBlock lessonID input).2
  | .AddImageBlock lessonID input => errorOf (s.AddImageBlock lessonID input).2
  | .AddAudioBlock lessonID input => errorOf (s.AddAudioBlock lessonID input).2
  | .AddVideoBlock lessonID input => errorOf (s.AddVideoBlock lessonID input).2
  | .CreateQuiz lessonID questions => errorOf (s.CreateQuiz lessonID questions).2
  | .SubmitForReview lessonID => errorOf (s.SubmitForReview lessonID).2
  | .ApproveSubmission ord lessonID => errorOf (s.ApproveSubmission ord lessonID).2
  | .PublishLesson lessonID => errorOf (s.PublishLesson lessonID).2
  | .StartLesson lessonID => errorOf (s.StartLesson lessonID).2
  | .CompleteLesson lessonID score => errorOf (s.CompleteLesson lessonID score).2
  | .SubmitQuiz input => errorOf (s.SubmitQuiz input).2
  | .RecommendedLessons _ => none
  | .SearchLessons _ _ => none
  | .GetProgressByLesson lessonID => errorOf (s.GetProgressByLesson lessonID)
  | .ListSubmissions _ _ => none

/-- The identifier the call obtains from `next`, for the methods whose body
calls `next` (each of them calls it once, as its first statement). -/
def issued (s : memoryStore) : Op → Option String
  | .next => some s.next.2
  | .CreateUser _ => some s.next.2
  | .CreateStudentProfile _ => some s.next.2
  | .CreateCourse _ => some s.next.2
  | .CreateUnit _ => some s.next.2
  | .CreateLesson _ => some s.next.2
  | .AddTextBlock _ _ => some s.next.2
  | .AddImageBlock _ _ => some s.next.2
  | .AddAudioBlock _ _ => some s.next.2
  | .AddVideoBlock _ _ => some s.next.2
  | .CreateQuiz _ _ => some s.next.2
  | .SubmitForReview _ => some s.next.2
  | .StartLesson _ => some s.next.2
  | .CompleteLesson _ _ => some s.next.2
  | .SubmitQuiz _ => some s.next.2
  | .ListSubjects _ => none
  | .ListCourses _ _ _ => none
  | .GetCourse _ => none
  | .ListUnits _ _ => none
  | .ListLessons _ _ => none
  | .GetLesson _ => none
  | .ApproveSubmission _ _ => none
  | .PublishLesson _ => none
  | .RecommendedLessons _ => none
  | .SearchLessons _ _ => none
  | .GetProgressByLesson _ => none
  | .ListSubmissions _ _ => none

end Op

/-- The store after a sequence of calls, made one after the other. -/
def run (s : memoryStore) (ops : List Op) : memoryStore :=
  ops.foldl Op.apply s

/-- The identifiers handed out by `next` during a sequence of calls, in the
order of the calls. -/
def issuedIDs : memoryStore → List Op → List String
  | _, [] => []
  | s, op :: ops => (op.issued s).toList ++ issuedIDs (op.apply s) ops

/-- A state of the store that some sequence of calls reaches from the freshly
initialised store. -/
def Reachable (s : memoryStore) : Prop :=
  ∃ ops : List Op, run newMemoryStore ops = s

/-- A state that a sequence of calls reaches from the freshly initialised store
before the counter has wrapped around: `next` has handed out fewer than
`2^63 - 1` identifiers, so the counter is at most `maxInt`. -/
def Unwrapped (s : memoryStore) : Prop :=
  ∃ ops : List Op, run newMemoryStore ops = s ∧
    ((issuedIDs newMemoryStore ops).length : Int) < maxInt

/-! ## The resolvers used below -/

/-- The query resolver `Subjects`, over the state of the package-level `store`. -/
def queryResolver.Subjects (store : memoryStore) (ord : List Nat) :
    List model.Subject × Option String :=
  (store.ListSubjects ord, none)

/-! ## Invariants and predicates of the specification -/

/-- Invariant of the reachable states: every entity is filed under its own ID,
and the parent reference of a stored course, unit or lesson is not nil. -/
def Filed (s : memoryStore) : Prop :=
  (∀ e ∈ s.subjects.entries, e.2.ID = e.1) ∧
  (∀ e ∈ s.courses.entries, e.2.ID = e.1 ∧ e.2.Subject.isSome = true) ∧
  (∀ e ∈ s.units.entries, e.2.ID = e.1 ∧ e.2.Course.isSome = true) ∧
  (∀ e ∈ s.lessons.entries, e.2.ID = e.1 ∧ e.2.Unit.isSome = true) ∧
  (∀ e ∈ s.submissions.entries, e.2.ID = e.1)

/-- The filter of `listCourses` in the words of the specification: a course is
kept iff every supplied filter matches exactly. -/
def matchesFilters (grade : Option Int) (subjectID : Option String) (c : model.Course) : Prop :=
  (grade = none ∨ some c.Grade = grade) ∧
    (subjectID = none ∨ c.Subject.map (·.ID) = subjectID)

instance (grade : Option Int) (subjectID : Option String) (c : model.Course) :
    Decidable (matchesFilters grade subjectID c) := by
  unfold matchesFilters
  infer_instance

/-- Read a sequence of decimal digits back as a number. -/
def readDecimal (cs : List Char) : Nat :=
  cs.foldl (fun a c => 10 * a + (c.toNat - 48)) 0

/-- Every key of every collection of `s` is a key of the same collection of `t`. -/
def KeysKept (s t : memoryStore) : Prop :=
  (∀ k ∈ s.subjects.keys, k ∈ t.subjects.keys) ∧
  (∀ k ∈ s.courses.keys, k ∈ t.courses.keys) ∧
  (∀ k ∈ s.units.keys, k ∈ t.units.keys) ∧
  (∀ k ∈ s.lessons.keys, k ∈ t.lessons.keys) ∧
  (∀ k ∈ s.submissions.keys, k ∈ t.submissions.keys)

/-- The cases in which, by the specification's failure semantics, a call returns
an error: a create whose parent ID is absent, and `approveSubmission` on an
empty submission collection. -/
def specErrorCase (s : memoryStore) : Op → Bool
  | .CreateCourse input => (s.subjects.lookup input.SubjectID).isNone
  | .CreateUnit input => (s.courses.lookup input.CourseID).isNone
  | .CreateLesson input => (s.units.lookup input.UnitID).isNone
  | .ApproveSubmission _ _ => s.submissions.len == 0
  | _ => false

/-- The cases of `specErrorCase`, and `publishLesson` on a lesson ID that is absent. -/
def errorCase (s : memoryStore) : Op → Bool
  | .PublishLesson lessonID => (s.lessons.lookup lessonID).isNone
  | op => specErrorCase s op

/-- The key `k` is the rendering of a number below `n`. -/
def IssuedBelow (n : Nat) (k : String) : Prop :=
  ∃ m : Nat, m < n ∧ k = toString (m : Int)

/-- Invariant of the states reached before the counter wraps around: the
counter is a positive number not above `maxInt`, and every key of the courses,
units, lessons and submissions collections is the rendering of a smaller
number, so the identifier `next` hands out is not yet a key of any of them. -/
def Fresh (s : memoryStore) : Prop :=
  ∃ n : Nat, s.nextID = (n : Int) ∧ 1 ≤ n ∧ (n : Int) ≤ maxInt ∧
    (∀ k ∈ s.courses.keys, IssuedBelow n k) ∧
    (∀ k ∈ s.units.keys, IssuedBelow n k) ∧
    (∀ k ∈ s.lessons.keys, IssuedBelow n k) ∧
    (∀ k ∈ s.submissions.keys, IssuedBelow n k)

/-- What a call can add to the keys of a collection: nothing, or the identifier
`next` hands out, in which case the counter has advanced. -/
def KeysGrowBy (s t : memoryStore) (old new : List String) : Prop :=
  ∀ k ∈ new, k ∈ old ∨ (k = toString s.nextID ∧ t.nextID = wrapInt (s.nextID + 1))

/-- The state `t` is `s` with the counter incremented (`nextID++`) and nothing
else changed. -/
def OnlyCounterAdvanced (s t : memoryStore) : Prop :=
  t.subjects = s.subjects ∧ t.courses = s.courses ∧ t.units = s.units ∧
    t.lessons = s.lessons ∧ t.submissions = s.submissions ∧
    t.nextID = wrapInt (s.nextID + 1)

/-- The identifier `id` is not a key of the courses, units, lessons or
submissions collection of `t`. -/
def Unassigned (id : String) (t : memoryStore) : Prop :=
  id ∉ t.courses.keys ∧ id ∉ t.units.keys ∧ id ∉ t.lessons.keys ∧ id ∉ t.submissions.keys

/-! ## The liveness handler of `main.go` -/

namespace http

/-- The constant `http.StatusOK`. -/
def StatusOK : Nat := 200

/-- An incoming request, as far as a handler can tell requests apart. -/
structure Request where
  Method : String
  URL : String
  Header : List (String × String)
  Body : List Nat
deriving DecidableEq, Repr

/-- The `http.ResponseWriter` a handler of `net/http` is called with: the
request it answers, and what has been sent in answer so far, the status code,
once the header has been written, and the bytes of the body. -/
structure ResponseWriter where
  req : Request
  wroteHeader : Bool
  status : Nat
  body : List Nat
deriving DecidableEq, Repr

/-- The function `bodyAllowedForStatus` of `net/http`: responses with status 1xx,
204 and 304 have no body. -/
def bodyAllowedForStatus (status : Nat) : Bool :=
  if 100 ≤ status ∧ status ≤ 199 then false
  else if status = 204 then false
  else if status = 304 then false
  else true

namespace ResponseWriter

/-- The writer the server hands to the handler for the request `r`: nothing
written yet. -/
def fresh (r : Request) : ResponseWriter :=
  { req := r, wroteHeader := false, status := 0, body := [] }

/-- The method `WriteHeader`, for a final status code: sets the status code,
unless the header has already been written. -/
def WriteHeader (w : ResponseWriter) (statusCode : Nat) : ResponseWriter :=
  if w.wroteHeader then w else { w with wroteHeader := true, status := statusCode }

/-- The method `Write`: writes the header with `StatusOK` if it has not been
written; the bytes are then sent as body, unless the status allows no body or
the request is a `HEAD` request, whose response carries no body. -/
def Write (w : ResponseWriter) (b : List Nat) : ResponseWriter :=
  let w := if w.wroteHeader then w else w.WriteHeader StatusOK
  if !bodyAllowedForStatus w.status then w
  else if w.req.Method = "HEAD" then w
  else { w with body := w.body ++ b }

end ResponseWriter

end http

/-- The UTF-8 encoding of a code point, as a sequence of byte values. -/
def utf8Bytes (n : Nat) : List Nat :=
  if n < 0x80 then [n]
  else if n < 0x800 then [0xC0 + n / 64, 0x80 + n % 64]
  else if n < 0x10000 then [0xE0 + n / 4096, 0x80 + n / 64 % 64, 0x80 + n % 64]
  else [0xF0 + n / 262144, 0x80 + n / 4096 % 64, 0x80 + n / 64 % 64, 0x80 + n % 64]

/-- The conversion `[]byte(s)` of a Go string: the bytes of its UTF-8 encoding. -/
def bytesOf (s : String) : List Nat :=
  s.data.flatMap fun c => utf8Bytes c.toNat

/-- The handler that `main` registers at `/health`. -/
def healthHandler (w : http.ResponseWriter) (_r : http.Request) : http.ResponseWriter :=
  let w := w.WriteHeader http.StatusOK
  w.Write (bytesOf "ok")

/-- The answer of the server to a request that is routed to `/health`: what the
handler has sent through the writer made for that request. -/
def serveHealth (r : http.Request) : http.ResponseWriter :=
  healthHandler (http.ResponseWriter.fresh r) r

/-! ## The mutex and concurrent calls -/

/-- The shared variables of the store: the five maps (with the objects they
point to) and the counter. -/
inductive Var where
  | subjects
  | courses
  | units
  | lessons
  | submissions
  | nextID
deriving DecidableEq, Repr

/-- One step of a method on the shared state: an operation on the mutex `mu`,
or a read or write of a shared variable. -/
inductive Action where
  | Lock
  | Unlock
  | RLock
  | RUnlock
  | read (v : Var)
  | write (v : Var)
deriving DecidableEq, Repr

/-- The steps of `next`: the counter is read and written between `Lock` and `Unlock`. -/
def nextActions : List Action :=
  [.Lock, .read .nextID, .write .nextID, .Unlock]

/-- The steps of a call, in program order, on the path the call takes in the
state `s`. A deferred `RUnlock` runs when the method returns. A write through a
stored pointer is a write of the collection holding the object. -/
def Op.actions (s : memoryStore) : Op → List Action
  | .next => nextActions
  | .CreateUser _ => nextActions
  | .CreateStudentProfile _ => nextActions
  | .ListSubjects _ => [.RLock, .read .subjects, .RUnlock]
  | .CreateCourse input =>
    nextActions ++ [.read .subjects] ++
      (match s.subjects.lookup input.SubjectID with
        | none => []
        | some _ => [.write .courses])
  | .ListCourses _ _ _ => [.RLock, .read .courses, .RUnlock]
  | .GetCourse _ => [.RLock, .read .courses, .RUnlock]
  | .CreateUnit input =>
    nextActions ++ [.read .courses] ++
      (match s.courses.lookup input.CourseID with
        | none => []
        | some _ => [.write .units])
  | .ListUnits _ _ => [.RLock, .read .units, .RUnlock]
  | .CreateLesson input =>
    nextActions ++ [.read .units] ++
      (match s.units.lookup input.UnitID with
        | none => []
        | some _ => [.write .lessons])
  | .ListLessons _ _ => [.RLock, .read .lessons, .RUnlock]
  | .GetLesson _ => [.RLock, .read .lessons, .RUnlock]
  | .AddTextBlock _ _ => nextActions
  | .AddImageBlock _ _ => nextActions
  | .AddAudioBlock _ _ => nextActions
  | .AddVideoBlock _ _ => nextActions
  | .CreateQuiz _ _ => nextActions
  | .SubmitForReview _ => nextActions ++ [.write .submissions]
  | .ApproveSubmission ord _ =>
    [.read .submissions] ++
      (match s.submissions.range ord with
        | _ :: _ => [.write .submissions]
        | [] => [])
  | .PublishLesson lessonID =>
    [.read .lessons] ++
      (match s.lessons.lookup lessonID with
        | some _ => [.write .lessons]
        | none => [])
  | .StartLesson _ => nextActions
  | .CompleteLesson _ _ => nextActions
  | .SubmitQuiz _ => nextActions
  | .RecommendedLessons _ => []
  | .SearchLessons _ _ => []
  | .GetProgressByLesson _ => []
  | .ListSubmissions _ _ => [.read .submissions]

/-- The reads and writes in a sequence of steps that are made while the
exclusive lock is not held; `held` tells whether it is held at the start. -/
def unguarded : Bool → List Action → List Action
  | _, [] => []
  | _, .Lock :: r => unguarded true r
  | _, .Unlock :: r => unguarded false r
  | held, .RLock :: r => unguarded held r
  | held, .RUnlock :: r => unguarded held r
  | held, .read v :: r => if held then unguarded held r else .read v :: unguarded held r
  | held, .write v :: r => if held then unguarded held r else .write v :: unguarded held r

/-- Calls running concurrently: who holds the mutex, and the steps each call
has still to make. -/
structure Config where
  writer : Option Nat
  readers : List Nat
  threads : List (List Action)
deriving DecidableEq, Repr

namespace Config

/-- The start of concurrent calls: the mutex is free, no step has been made. -/
def start (threads : List (List Action)) : Config :=
  { writer := none, readers := [], threads := threads }

/-- Call number `i` makes its next step, if the mutex lets it: `Lock` waits
until nobody holds the mutex, `RLock` until no writer holds it; a read or write
of a shared variable is never held up. -/
def step (c : Config) (i : Nat) : Option Config :=
  match c.threads[i]? with
  | some (a :: rest) =>
    match a with
    | .Lock =>
      if c.writer = none ∧ c.readers = [] then
        some { c with writer := some i, threads := c.threads.set i rest }
      else none
    | .Unlock =>
      if c.writer = some i then
        some { c with writer := none, threads := c.threads.set i rest }
      else none
    | .RLock =>
      if c.writer = none then
        some { c with readers := i :: c.readers, threads := c.threads.set i rest }
      else none
    | .RUnlock =>
      if i ∈ c.readers then
        some { c with readers := c.readers.erase i, threads := c.threads.set i rest }
      else none
    | .read _ => some { c with threads := c.threads.set i rest }
    | .write _ => some { c with threads := c.threads.set i rest }
  | _ => none

/-- The calls make their steps in the order the schedule names them. -/
def run (c : Config) : List Nat → Option Config
  | [] => some c
  | i :: sched =>
    match c.step i with
    | some c2 => c2.run sched
    | none => none

end Config

/-- Two steps conflict when they touch the same shared variable and one of them
writes it. -/
def conflict : Action → Action → Bool
  | .write v, .write w => v == w
  | .write v, .read w => v == w
  | .read v, .write w => v == w
  | _, _ => false

/-- Some two of the given next steps conflict. -/
def anyConflict : List (Option Action) → Bool
  | [] => false
  | h :: t =>
    t.any (fun h2 =>
      match h, h2 with
      | some a, some b => conflict a b
      | _, _ => false) || anyConflict t

/-- A data race: the next steps of two calls conflict, and nothing keeps the
two calls from making them at the same time. -/
def Config.race (c : Config) : Bool :=
  anyConflict (c.threads.map List.head?)

/-- Every call holds the exclusive lock whenever it reads or writes a shared
variable, now and in the steps it has still to make. -/
def Config.Guarded (c : Config) : Prop :=
  ∀ (i : Nat) (t : List Action), c.threads[i]? = some t →
    unguarded (decide (c.writer = some i)) t = []

/-! ## Association lists and the range order -/

theorem assocSet_keys {V : Type} (k : String) (v : V) (l : List (String × V)) :
    (assocSet k v l).map Prod.fst =
      if k ∈ l.map Prod.fst then l.map Prod.fst else l.map Prod.fst ++ [k] := by
  induction l with
  | nil => simp [assocSet]
  | cons e r ih =>
    obtain ⟨k1, v1⟩ := e
    by_cases h : k1 = k
    · subst h
      simp [assocSet]
    · have h2 : ¬ k = k1 := fun h3 => h h3.symm
      by_cases hm : k ∈ r.map Prod.fst
      · simp only [assocSet, if_neg h, List.map_cons, ih, if_pos hm]
        simp [h2, hm]
      · simp only [assocSet, if_neg h, List.map_cons, ih, if_neg hm]
        simp [h2, hm]

theorem assocSet_nodup {V : Type} (k : String) (v : V) (l : List (String × V))
    (h : (l.map Prod.fst).Nodup) : ((assocSet k v l).map Prod.fst).Nodup := by
  rw [assocSet_keys]
  split
  · exact h
  · next hk =>
    rw [List.nodup_append]
    refine ⟨h, List.nodup_singleton k, ?_⟩
    intro a ha hb
    rw [List.mem_singleton] at hb
    subst hb
    exact hk ha

theorem mem_assocSet {V : Type} (k : String) (v : V) (l : List (String × V)) (e : String × V)
    (h : e ∈ assocSet k v l) : e = (k, v) ∨ e ∈ l := by
  induction l with
  | nil => simpa [assocSet] using h
  | cons e1 r ih =>
    obtain ⟨k1, v1⟩ := e1
    by_cases hk : k1 = k
    · simp only [assocSet, if_pos hk, List.mem_cons] at h
      rcases h with h | h
      · exact Or.inl h
      · exact Or.inr (List.mem_cons_of_mem _ h)
    · simp only [assocSet, if_neg hk, List.mem_cons] at h
      rcases h with h | h
      · exact Or.inr (h ▸ List.mem_cons_self _ _)
      · rcases ih h with h2 | h2
        · exact Or.inl h2
        · exact Or.inr (List.mem_cons_of_mem _ h2)

theorem assocGet_assocSet_self {V : Type} (k : String) (v : V) (l : List (String × V)) :
    assocGet k (assocSet k v l) = some v := by
  induction l with
  | nil => simp [assocSet, assocGet]
  | cons e1 r ih =>
    obtain ⟨k1, v1⟩ := e1
    by_cases hk : k1 = k
    · simp [assocSet, assocGet, hk]
    · simp [assocSet, assocGet, hk, ih]

theorem assocGet_assocSet_ne {V : Type} (k k2 : String) (v : V) (l : List (String × V))
    (h : k2 ≠ k) : assocGet k2 (assocSet k v l) = assocGet k2 l := by
  induction l with
  | nil => simp [assocSet, assocGet, h.symm]
  | cons e1 r ih =>
    obtain ⟨k1, v1⟩ := e1
    by_cases hk : k1 = k
    · subst hk
      simp [assocSet, assocGet, h.symm]
    · by_cases hk2 : k1 = k2
      · subst hk2
        simp [assocSet, assocGet, h]
      · simp [assocSet, assocGet, hk, hk2, ih]

theorem assocGet_eq_none_iff {V : Type} (k : String) (l : List (String × V)) :
    assocGet k l = none ↔ k ∉ l.map Prod.fst := by
  induction l with
  | nil => simp [assocGet]
  | cons e1 r ih =>
    obtain ⟨k1, v1⟩ := e1
    by_cases hk : k1 = k
    · simp [assocGet, hk]
    · have hk2 : ¬ k = k1 := fun h => hk h.symm
      simp [assocGet, hk, hk2, ih]

theorem assocGet_mem {V : Type} (k : String) (v : V) (l : List (String × V))
    (h : assocGet k l = some v) : (k, v) ∈ l := by
  induction l with
  | nil => simp [assocGet] at h
  | cons e1 r ih =>
    obtain ⟨k1, v1⟩ := e1
    by_cases hk : k1 = k
    · simp only [assocGet, if_pos hk, Option.some.injEq] at h
      simp [hk, h]
    · simp only [assocGet, if_neg hk] at h
      exact List.mem_cons_of_mem _ (ih h)

theorem assocGet_of_mem {V : Type} (k : String) (v : V) (l : List (String × V))
    (hn : (l.map Prod.fst).Nodup) (h : (k, v) ∈ l) : assocGet k l = some v := by
  induction l with
  | nil => simp at h
  | cons e1 r ih =>
    obtain ⟨k1, v1⟩ := e1
    rw [List.map_cons, List.nodup_cons] at hn
    rcases List.mem_cons.mp h with h1 | h1
    · cases h1
      simp [assocGet]
    · have hk : k1 ≠ k := by
        intro hk
        subst hk
        exact hn.1 (List.mem_map.mpr ⟨(k1, v), h1, rfl⟩)
      simp only [assocGet, if_neg hk]
      exact ih hn.2 h1

theorem rangeOrder_perm {α : Type} (ord : List Nat) (l : List α) :
    (rangeOrder ord l).Perm l := by
  induction l generalizing ord with
  | nil => cases ord <;> simp [rangeOrder]
  | cons x xs ih =>
    cases ord with
    | nil => simp [rangeOrder]
    | cons c cs =>
      simp only [rangeOrder]
      have hlen : (rangeOrder cs xs).length = xs.length := (ih cs).length_eq
      have hle : c % (xs.length + 1) ≤ (rangeOrder cs xs).length := by
        rw [hlen]
        exact Nat.lt_succ_iff.mp (Nat.mod_lt _ (Nat.succ_pos _))
      exact (List.perm_insertIdx x _ hle).trans ((ih cs).cons x)

theorem insertIdx_length_append {α : Type} (x : α) (a b : List α) :
    (a ++ b).insertIdx a.length x = a ++ x :: b := by
  induction a with
  | nil => simp
  | cons y a ih => simp [List.insertIdx_succ_cons, ih]

/-- The orders `rangeOrder` produces are all the orders there are: every
arrangement of the elements is chosen by some `ord`. -/
theorem rangeOrder_surjective {α : Type} (l l2 : List α) (h : l2.Perm l) :
    ∃ ord, rangeOrder ord l = l2 := by
  induction l generalizing l2 with
  | nil => exact ⟨[], by rw [List.Perm.eq_nil h]; rfl⟩
  | cons x xs ih =>
    obtain ⟨a, b, rfl⟩ := List.append_of_mem (h.symm.subset (List.mem_cons_self x xs))
    have hab : (a ++ b).Perm xs := (List.perm_middle.symm.trans h).cons_inv
    obtain ⟨cs, hcs⟩ := ih (a ++ b) hab
    refine ⟨a.length :: cs, ?_⟩
    have hlen : a.length < xs.length + 1 := by
      have := hab.length_eq
      rw [List.length_append] at this
      omega
    simp only [rangeOrder, hcs, Nat.mod_eq_of_lt hlen]
    exact insertIdx_length_append x a b

theorem foldl_collect {α β : Type} (p : α → Bool) (f : α → β) (l : List α) (acc : List β) :
    l.foldl (fun out e => if p e then out ++ [f e] else out) acc =
      acc ++ (l.filter p).map f := by
  induction l generalizing acc with
  | nil => simp
  | cons x xs ih =>
    by_cases hp : p x
    · simp [List.foldl_cons, hp, ih, List.filter_cons]
    · simp [List.foldl_cons, hp, ih, List.filter_cons]

theorem foldl_collect_all {α β : Type} (f : α → β) (l : List α) (acc : List β) :
    l.foldl (fun out e => out ++ [f e]) acc = acc ++ l.map f := by
  induction l generalizing acc with
  | nil => simp
  | cons x xs ih => simp [List.foldl_cons, ih]

namespace GoMap

variable {V : Type}

theorem lookup_set_self (m : GoMap V) (k : String) (v : V) : (m.set k v).lookup k = some v :=
  assocGet_assocSet_self k v m.entries

theorem lookup_set_ne (m : GoMap V) (k k2 : String) (v : V) (h : k2 ≠ k) :
    (m.set k v).lookup k2 = m.lookup k2 :=
  assocGet_assocSet_ne k k2 v m.entries h

theorem lookup_eq_none_iff (m : GoMap V) (k : String) : m.lookup k = none ↔ k ∉ m.keys :=
  assocGet_eq_none_iff k m.entries

theorem lookup_eq_some_iff (m : GoMap V) (k : String) (v : V) :
    m.lookup k = some v ↔ (k, v) ∈ m.entries :=
  ⟨assocGet_mem k v m.entries, assocGet_of_mem k v m.entries m.nodup⟩

theorem mem_keys_set (m : GoMap V) (k : String) (v : V) (a : String) (h : a ∈ m.keys) :
    a ∈ (m.set k v).keys := by
  unfold keys set at *
  simp only [assocSet_keys]
  split
  · exact h
  · exact List.mem_append_left _ h

theorem self_mem_keys_set (m : GoMap V) (k : String) (v : V) : k ∈ (m.set k v).keys := by
  have h := lookup_set_self m k v
  by_contra hn
  rw [← lookup_eq_none_iff] at hn
  rw [hn] at h
  exact Option.noConfusion h

theorem range_perm (ord : List Nat) (m : GoMap V) : (m.range ord).Perm m.entries :=
  rangeOrder_perm ord m.entries

end GoMap

namespace memoryStore

theorem ListCourses_eq (s : memoryStore) (ord : List Nat) (grade : Option Int)
    (subjectID : Option String) :
    s.ListCourses ord grade subjectID =
      ((s.courses.range ord).filter (fun e => ListCourses.keep grade subjectID e.2)).map Prod.snd := by
  unfold ListCourses
  rw [foldl_collect (fun e => ListCourses.keep grade subjectID e.2) Prod.snd]
  simp

theorem ListCourses_all (s : memoryStore) (ord : List Nat) :
    s.ListCourses ord none none = (s.courses.range ord).map Prod.snd := by
  rw [ListCourses_eq]
  simp [ListCourses.keep]

end memoryStore

/-! ## The invariant of the reachable states -/

theorem GoMap.forall_set {V : Type} (P : String × V → Prop) (m : GoMap V) (k : String) (v : V)
    (hm : ∀ e ∈ m.entries, P e) (hv : P (k, v)) : ∀ e ∈ (m.set k v).entries, P e := by
  intro e he
  rcases mem_assocSet k v m.entries e he with h | h
  · exact h ▸ hv
  · exact hm e h

theorem GoMap.range_head_mem {V : Type} (ord : List Nat) (m : GoMap V) (e : String × V)
    (r : List (String × V)) (h : m.range ord = e :: r) : e ∈ m.entries :=
  (GoMap.range_perm ord m).subset (h ▸ List.mem_cons_self e r)

theorem Filed_newMemoryStore : Filed newMemoryStore := by
  refine ⟨?_, ?_, ?_, ?_, ?_⟩ <;> intro e he
  · have h : e = ("1", ⟨"1", "Math"⟩) := by
      simpa [newMemoryStore, GoMap.set, GoMap.empty, assocSet] using he
    subst h
    rfl
  all_goals simp [newMemoryStore, GoMap.empty] at he

theorem Filed_apply (s : memoryStore) (op : Op) (h : Filed s) : Filed (op.apply s) := by
  obtain ⟨h1, h2, h3, h4, h5⟩ := h
  cases op with
  | CreateCourse input =>
    simp only [Op.apply, memoryStore.CreateCourse, memoryStore.next]
    split
    · exact ⟨h1, h2, h3, h4, h5⟩
    · exact ⟨h1, GoMap.forall_set _ _ _ _ h2 ⟨rfl, rfl⟩, h3, h4, h5⟩
  | CreateUnit input =>
    simp only [Op.apply, memoryStore.CreateUnit, memoryStore.next]
    split
    · exact ⟨h1, h2, h3, h4, h5⟩
    · exact ⟨h1, h2, GoMap.forall_set _ _ _ _ h3 ⟨rfl, rfl⟩, h4, h5⟩
  | CreateLesson input =>
    simp only [Op.apply, memoryStore.CreateLesson, memoryStore.next]
    split
    · exact ⟨h1, h2, h3, h4, h5⟩
    · exact ⟨h1, h2, h3, GoMap.forall_set _ _ _ _ h4 ⟨rfl, rfl⟩, h5⟩
  | SubmitForReview lessonID =>
    exact ⟨h1, h2, h3, h4, GoMap.forall_set _ _ _ _ h5 rfl⟩
  | ApproveSubmission ord lessonID =>
    simp only [Op.apply, memoryStore.ApproveSubmission]
    split
    · next k sub r hr =>
      have hm := h5 _ (GoMap.range_head_mem ord s.submissions (k, sub) r hr)
      exact ⟨h1, h2, h3, h4, GoMap.forall_set _ _ _ _ h5 hm⟩
    · exact ⟨h1, h2, h3, h4, h5⟩
  | PublishLesson lessonID =>
    simp only [Op.apply, memoryStore.PublishLesson]
    split
    · next l hl =>
      have hm := h4 _ ((GoMap.lookup_eq_some_iff _ _ _).mp hl)
      exact ⟨h1, h2, h3, GoMap.forall_set _ _ _ _ h4 hm, h5⟩
    · exact ⟨h1, h2, h3, h4, h5⟩
  | _ => exact ⟨h1, h2, h3, h4, h5⟩

theorem Filed_run (s : memoryStore) (ops : List Op) (h : Filed s) : Filed (run s ops) := by
  induction ops generalizing s with
  | nil => exact h
  | cons op ops ih => exact ih (op.apply s) (Filed_apply s op h)

theorem Reachable.filed {s : memoryStore} (h : Reachable s) : Filed s := by
  obtain ⟨ops, rfl⟩ := h
  exact Filed_run _ ops Filed_newMemoryStore

theorem Reachable.apply {s : memoryStore} (h : Reachable s) (op : Op) : Reachable (op.apply s) := by
  obtain ⟨ops, rfl⟩ := h
  exact ⟨ops ++ [op], by simp [run, List.foldl_append]⟩

theorem Reachable.init : Reachable newMemoryStore := ⟨[], rfl⟩

/-! ## Creating a course and reading it back (C1, C2) -/

theorem GoMap.mem_values_iff {V : Type} (m : GoMap V) (v : V) :
    v ∈ m.values ↔ ∃ k, m.lookup k = some v := by
  unfold GoMap.values
  rw [List.mem_map]
  constructor
  · rintro ⟨⟨k, v2⟩, he, rfl⟩
    exact ⟨k, (m.lookup_eq_some_iff k v2).mpr he⟩
  · rintro ⟨k, hk⟩
    exact ⟨(k, v), (m.lookup_eq_some_iff k v).mp hk, rfl⟩

theorem Reachable.lookup_subject {s : memoryStore} (h : Reachable s) (subj : model.Subject)
    (hm : subj ∈ s.subjects.values) : s.subjects.lookup subj.ID = some subj := by
  obtain ⟨k, hk⟩ := (GoMap.mem_values_iff _ _).mp hm
  have hid := h.filed.1 (k, subj) ((GoMap.lookup_eq_some_iff _ _ _).mp hk)
  simp only at hid
  rw [hid]
  exact hk

theorem Reachable.lookup_subject_none {s : memoryStore} (h : Reachable s) (id : String)
    (hm : ∀ subj ∈ s.subjects.values, subj.ID ≠ id) : s.subjects.lookup id = none := by
  cases hl : s.subjects.lookup id with
  | none => rfl
  | some subj =>
    have hid := h.filed.1 (id, subj) ((GoMap.lookup_eq_some_iff _ _ _).mp hl)
    exact absurd hid (hm subj ((GoMap.mem_values_iff _ _).mpr ⟨id, hl⟩))

theorem memoryStore.CreateCourse_found (s : memoryStore) (input : model.CreateCourseInput)
    (subj : model.Subject) (h : s.subjects.lookup input.SubjectID = some subj) :
    s.CreateCourse input =
      ({ s with
          nextID := wrapInt (s.nextID + 1)
          courses := s.courses.set (toString s.nextID)
            ⟨toString s.nextID, some subj, input.Grade, input.Title⟩ },
        .ok ⟨toString s.nextID, some subj, input.Grade, input.Title⟩) := by
  have hs : (s.next.1).subjects.lookup input.SubjectID = some subj := h
  simp only [memoryStore.CreateCourse]
  rw [hs]
  rfl

theorem memoryStore.CreateCourse_missing (s : memoryStore) (input : model.CreateCourseInput)
    (h : s.subjects.lookup input.SubjectID = none) :
    s.CreateCourse input = ({ s with nextID := wrapInt (s.nextID + 1) }, .error "subject not found") := by
  have hs : (s.next.1).subjects.lookup input.SubjectID = none := h
  simp only [memoryStore.CreateCourse]
  rw [hs]
  rfl

/-- C1: for every reachable state of the store and every input whose `SubjectID`
is the ID of a stored subject, `CreateCourse` returns a course and no error, and
`GetCourse` on the ID of that course, in the state after the call, returns
without error a course whose subject is that stored subject, whose grade is the
input grade and whose title is the input title. -/
theorem CreateCourse_GetCourse_roundtrip (s : memoryStore) (input : model.CreateCourseInput)
    (subj : model.Subject) (hr : Reachable s) (hm : subj ∈ s.subjects.values)
    (hid : subj.ID = input.SubjectID) :
    ∃ c : model.Course, (s.CreateCourse input).2 = .ok c ∧
      ∃ c2 : model.Course, (s.CreateCourse input).1.GetCourse c.ID = .ok (some c2) ∧
        c2.Subject = some subj ∧ c2.Grade = input.Grade ∧ c2.Title = input.Title := by
  have h : s.subjects.lookup input.SubjectID = some subj := hid ▸ hr.lookup_subject subj hm
  rw [memoryStore.CreateCourse_found s input subj h]
  refine ⟨_, rfl, ⟨toString s.nextID, some subj, input.Grade, input.Title⟩, ?_, rfl, rfl, rfl⟩
  simp only [memoryStore.GetCourse, GoMap.lookup_set_self]

theorem CreateCourse_GetCourse_roundtrip_witness :
    Reachable newMemoryStore ∧
      (⟨"1", "Math"⟩ : model.Subject) ∈ newMemoryStore.subjects.values ∧
      ∃ c : model.Course,
        (newMemoryStore.CreateCourse ⟨"1", 7, "Algebra"⟩).2 = .ok c ∧
        ∃ c2 : model.Course,
          (newMemoryStore.CreateCourse ⟨"1", 7, "Algebra"⟩).1.GetCourse c.ID = .ok (some c2) ∧
          c2.Subject = some ⟨"1", "Math"⟩ ∧ c2.Grade = 7 ∧ c2.Title = "Algebra" :=
  ⟨Reachable.init, by decide,
    CreateCourse_GetCourse_roundtrip newMemoryStore ⟨"1", 7, "Algebra"⟩ ⟨"1", "Math"⟩
      Reachable.init (by decide) rfl⟩

/-- C2: for every reachable state of the store and every input whose `SubjectID`
is not the ID of any stored subject, `CreateCourse` returns the error
"subject not found" and no course, and the stored courses are unchanged: the
course collection is the same, so `ListCourses(nil, nil)` returns the same
sequence for the same range order, and the same courses in the same number for
any two range orders. -/
theorem CreateCourse_unknown_subject (s : memoryStore) (input : model.CreateCourseInput)
    (hr : Reachable s) (hm : ∀ subj ∈ s.subjects.values, subj.ID ≠ input.SubjectID) :
    (s.CreateCourse input).2 = .error "subject not found" ∧
      (s.CreateCourse input).1.courses = s.courses ∧
      (∀ ord, (s.CreateCourse input).1.ListCourses ord none none = s.ListCourses ord none none) ∧
      (∀ ord1 ord2, ((s.CreateCourse input).1.ListCourses ord1 none none).Perm
        (s.ListCourses ord2 none none)) ∧
      (∀ ord1 ord2, ((s.CreateCourse input).1.ListCourses ord1 none none).length =
        (s.ListCourses ord2 none none).length) := by
  rw [memoryStore.CreateCourse_missing s input (hr.lookup_subject_none _ hm)]
  have h4 : ∀ (t : memoryStore) (ord1 ord2 : List Nat), t.courses = s.courses →
      (t.ListCourses ord1 none none).Perm (s.ListCourses ord2 none none) := by
    intro t ord1 ord2 ht
    rw [memoryStore.ListCourses_all, memoryStore.ListCourses_all, ht]
    exact ((GoMap.range_perm ord1 s.courses).trans (GoMap.range_perm ord2 s.courses).symm).map _
  exact ⟨rfl, rfl, fun _ => rfl, fun ord1 ord2 => h4 _ ord1 ord2 rfl,
    fun ord1 ord2 => (h4 _ ord1 ord2 rfl).length_eq⟩

theorem CreateCourse_unknown_subject_witness :
    Reachable newMemoryStore ∧
      (∀ subj ∈ newMemoryStore.subjects.values, subj.ID ≠ "2") ∧
      (newMemoryStore.CreateCourse ⟨"2", 7, "Algebra"⟩).2 = .error "subject not found" ∧
      (newMemoryStore.CreateCourse ⟨"2", 7, "Algebra"⟩).1.courses = newMemoryStore.courses :=
  ⟨Reachable.init, by decide,
    (CreateCourse_unknown_subject newMemoryStore ⟨"2", 7, "Algebra"⟩ Reachable.init
      (by decide)).1,
    (CreateCourse_unknown_subject newMemoryStore ⟨"2", 7, "Algebra"⟩ Reachable.init
      (by decide)).2.1⟩

/-! ## Listing courses (C3) -/

theorem memoryStore.ListCourses_filter (s : memoryStore) (ord : List Nat) (grade : Option Int)
    (subjectID : Option String) :
    s.ListCourses ord grade subjectID =
      ((s.courses.range ord).map Prod.snd).filter (ListCourses.keep grade subjectID) := by
  rw [memoryStore.ListCourses_eq, List.filter_map]
  rfl

theorem GoMap.range_values_perm {V : Type} (ord : List Nat) (m : GoMap V) :
    ((m.range ord).map Prod.snd).Perm m.values :=
  (GoMap.range_perm ord m).map _

theorem GoMap.values_nodup_of_key {V : Type} (m : GoMap V) (key : V → String)
    (h : ∀ e ∈ m.entries, key e.2 = e.1) : m.values.Nodup := by
  have hk : m.values.map key = m.entries.map Prod.fst := by
    unfold GoMap.values
    rw [List.map_map]
    exact List.map_congr_left fun e he => h e he
  exact List.Nodup.of_map key (hk ▸ m.nodup)

theorem memoryStore.ListCourses.keep_iff (grade : Option Int) (subjectID : Option String) (c : model.Course)
    (hc : c.Subject.isSome = true) :
    ListCourses.keep grade subjectID c = true ↔ matchesFilters grade subjectID c := by
  obtain ⟨subj, hsubj⟩ := Option.isSome_iff_exists.mp hc
  unfold memoryStore.ListCourses.keep matchesFilters
  rw [hsubj]
  cases grade <;> cases subjectID <;> simp

theorem Reachable.mem_ListCourses {s : memoryStore} (hr : Reachable s) (ord : List Nat)
    (grade : Option Int) (subjectID : Option String) (c : model.Course) :
    c ∈ s.ListCourses ord grade subjectID ↔
      c ∈ s.courses.values ∧ matchesFilters grade subjectID c := by
  rw [memoryStore.ListCourses_filter, List.mem_filter,
    (GoMap.range_values_perm ord s.courses).mem_iff]
  constructor
  · rintro ⟨hm, hk⟩
    obtain ⟨e, he, rfl⟩ := List.mem_map.mp hm
    exact ⟨hm, (memoryStore.ListCourses.keep_iff grade subjectID e.2 (hr.filed.2.1 e he).2).mp hk⟩
  · rintro ⟨hm, hk⟩
    obtain ⟨e, he, rfl⟩ := List.mem_map.mp hm
    exact ⟨hm, (memoryStore.ListCourses.keep_iff grade subjectID e.2 (hr.filed.2.1 e he).2).mpr hk⟩

/-- C3: in every reachable state of the store, for every range order, every
optional grade and every optional subject ID, `ListCourses` returns a sequence
without duplicates whose members are exactly the stored courses that match
every supplied filter (the grade is absent or equal to the course's grade, the
subject ID is absent or equal to the ID of the course's subject). In particular
`ListCourses(grade = g)` holds exactly the stored courses of grade `g`, and is
empty when no stored course has grade `g`. -/
theorem ListCourses_exact (s : memoryStore) (hr : Reachable s) (ord : List Nat)
    (grade : Option Int) (subjectID : Option String) :
    (s.ListCourses ord grade subjectID).Nodup ∧
      (∀ c, c ∈ s.ListCourses ord grade subjectID ↔
        c ∈ s.courses.values ∧ matchesFilters grade subjectID c) ∧
      (∀ g c, c ∈ s.ListCourses ord (some g) none ↔ c ∈ s.courses.values ∧ c.Grade = g) ∧
      (∀ g, (∀ c ∈ s.courses.values, c.Grade ≠ g) → s.ListCourses ord (some g) none = []) := by
  refine ⟨?_, hr.mem_ListCourses ord grade subjectID, ?_, ?_⟩
  · rw [memoryStore.ListCourses_filter]
    refine List.Nodup.filter _ ((GoMap.range_values_perm ord s.courses).nodup_iff.mpr ?_)
    exact GoMap.values_nodup_of_key s.courses (·.ID) fun e he => (hr.filed.2.1 e he).1
  · intro g c
    rw [hr.mem_ListCourses ord (some g) none c]
    simp [matchesFilters]
  · intro g hg
    rw [List.eq_nil_iff_forall_not_mem]
    intro c hc
    rw [hr.mem_ListCourses ord (some g) none c] at hc
    have h2 : c.Grade = g := by simpa [matchesFilters] using hc.2
    exact hg c hc.1 h2

theorem ListCourses_exact_witness :
    Reachable (run newMemoryStore [.CreateCourse ⟨"1", 7, "Algebra"⟩]) ∧
      ((run newMemoryStore [.CreateCourse ⟨"1", 7, "Algebra"⟩]).ListCourses [0] (some 7)
        (some "1")).Nodup ∧
      (∀ c, c ∈ (run newMemoryStore [.CreateCourse ⟨"1", 7, "Algebra"⟩]).ListCourses [0] (some 7)
          (some "1") ↔
        c ∈ (run newMemoryStore [.CreateCourse ⟨"1", 7, "Algebra"⟩]).courses.values ∧
          matchesFilters (some 7) (some "1") c) :=
  ⟨⟨_, rfl⟩,
    (ListCourses_exact _ ⟨[.CreateCourse ⟨"1", 7, "Algebra"⟩], rfl⟩ [0] (some 7) (some "1")).1,
    (ListCourses_exact _ ⟨[.CreateCourse ⟨"1", 7, "Algebra"⟩], rfl⟩ [0] (some 7) (some "1")).2.1⟩

/-! ## The identifiers handed out by `next` (C4) -/

theorem digitChar_value (d : Nat) (h : d < 10) : (Nat.digitChar d).toNat - 48 = d := by
  interval_cases d <;> rfl

theorem foldl_toDigitsCore (fuel n : Nat) (ds : List Char) (h : n < fuel) :
    (Nat.toDigitsCore 10 fuel n ds).foldl (fun a c => 10 * a + (c.toNat - 48)) 0 =
      ds.foldl (fun a c => 10 * a + (c.toNat - 48)) n := by
  induction fuel generalizing n ds with
  | zero => exact absurd h (Nat.not_lt_zero n)
  | succ fuel ih =>
    have hd : (Nat.digitChar (n % 10)).toNat - 48 = n % 10 :=
      digitChar_value _ (Nat.mod_lt n (by decide))
    simp only [Nat.toDigitsCore]
    split
    · next h0 =>
      have hn : n % 10 = n := by omega
      rw [hn] at hd
      simp only [List.foldl_cons, hn, hd, Nat.mul_zero, Nat.zero_add]
    · next h0 =>
      rw [ih (n / 10) _ (by omega)]
      simp only [List.foldl_cons, hd]
      congr 1
      omega

theorem readDecimal_toString (n : Nat) : readDecimal (toString n).data = n := by
  show readDecimal (Nat.toDigits 10 n) = n
  unfold readDecimal Nat.toDigits
  rw [foldl_toDigitsCore (n + 1) n [] (Nat.lt_succ_self n)]
  rfl

theorem toString_nat_injective (m n : Nat) (h : toString m = toString n) : m = n := by
  rw [← readDecimal_toString m, ← readDecimal_toString n, h]

theorem wrapInt_of_le (x : Int) (h1 : -2 ^ 63 ≤ x) (h2 : x ≤ maxInt) : wrapInt x = x := by
  unfold wrapInt
  unfold maxInt at h2
  omega

theorem wrapInt_succ (x : Int) : wrapInt (wrapInt x + 1) = wrapInt (x + 1) := by
  unfold wrapInt
  omega

theorem wrapInt_natCast (n : Nat) (h : (n : Int) ≤ maxInt) : wrapInt (n : Int) = (n : Int) :=
  wrapInt_of_le _ (by omega) h

theorem memoryStore.next_eq (s : memoryStore) :
    s.next = ({ s with nextID := wrapInt (s.nextID + 1) }, toString s.nextID) := rfl

theorem Op.issued_nextID (s : memoryStore) (op : Op) :
    (op.issued s = none ∧ (op.apply s).nextID = s.nextID) ∨
      (op.issued s = some (toString s.nextID) ∧
        (op.apply s).nextID = wrapInt (s.nextID + 1)) := by
  cases op with
  | CreateCourse input =>
    refine Or.inr ⟨rfl, ?_⟩
    simp only [Op.apply, memoryStore.CreateCourse, memoryStore.next]
    split <;> rfl
  | CreateUnit input =>
    refine Or.inr ⟨rfl, ?_⟩
    simp only [Op.apply, memoryStore.CreateUnit, memoryStore.next]
    split <;> rfl
  | CreateLesson input =>
    refine Or.inr ⟨rfl, ?_⟩
    simp only [Op.apply, memoryStore.CreateLesson, memoryStore.next]
    split <;> rfl
  | ApproveSubmission ord lessonID =>
    refine Or.inl ⟨rfl, ?_⟩
    simp only [Op.apply, memoryStore.ApproveSubmission]
    split <;> rfl
  | PublishLesson lessonID =>
    refine Or.inl ⟨rfl, ?_⟩
    simp only [Op.apply, memoryStore.PublishLesson]
    split <;> rfl
  | next => exact Or.inr ⟨rfl, rfl⟩
  | CreateUser _ => exact Or.inr ⟨rfl, rfl⟩
  | CreateStudentProfile _ => exact Or.inr ⟨rfl, rfl⟩
  | AddTextBlock _ _ => exact Or.inr ⟨rfl, rfl⟩
  | AddImageBlock _ _ => exact Or.inr ⟨rfl, rfl⟩
  | AddAudioBlock _ _ => exact Or.inr ⟨rfl, rfl⟩
  | AddVideoBlock _ _ => exact Or.inr ⟨rfl, rfl⟩
  | CreateQuiz _ _ => exact Or.inr ⟨rfl, rfl⟩
  | SubmitForReview _ => exact Or.inr ⟨rfl, rfl⟩
  | StartLesson _ => exact Or.inr ⟨rfl, rfl⟩
  | CompleteLesson _ _ => exact Or.inr ⟨rfl, rfl⟩
  | SubmitQuiz _ => exact Or.inr ⟨rfl, rfl⟩
  | ListSubjects _ => exact Or.inl ⟨rfl, rfl⟩
  | ListCourses _ _ _ => exact Or.inl ⟨rfl, rfl⟩
  | GetCourse _ => exact Or.inl ⟨rfl, rfl⟩
  | ListUnits _ _ => exact Or.inl ⟨rfl, rfl⟩
  | ListLessons _ _ => exact Or.inl ⟨rfl, rfl⟩
  | GetLesson _ => exact Or.inl ⟨rfl, rfl⟩
  | RecommendedLessons _ => exact Or.inl ⟨rfl, rfl⟩
  | SearchLessons _ _ => exact Or.inl ⟨rfl, rfl⟩
  | GetProgressByLesson _ => exact Or.inl ⟨rfl, rfl⟩
  | ListSubmissions _ _ => exact Or.inl ⟨rfl, rfl⟩

theorem issuedIDs_from (s : memoryStore) (ops : List Op) (n : Nat)
    (hn : s.nextID = wrapInt (n : Int)) :
    issuedIDs s ops =
        (List.range' n (issuedIDs s ops).length).map
          (fun k : Nat => toString (wrapInt (k : Int))) ∧
      (run s ops).nextID = wrapInt ((n + (issuedIDs s ops).length : Nat) : Int) := by
  induction ops generalizing s n with
  | nil => exact ⟨rfl, by simpa [run, issuedIDs] using hn⟩
  | cons op ops ih =>
    rcases Op.issued_nextID s op with ⟨h1, h2⟩ | ⟨h1, h2⟩
    · obtain ⟨ih1, ih2⟩ := ih (op.apply s) n (h2.trans hn)
      have he : issuedIDs s (op :: ops) = issuedIDs (op.apply s) ops := by
        simp [issuedIDs, h1]
      rw [he]
      exact ⟨ih1, ih2⟩
    · have hn2 : (op.apply s).nextID = wrapInt ((n + 1 : Nat) : Int) := by
        rw [h2, hn, wrapInt_succ]
        push_cast
        rfl
      obtain ⟨ih1, ih2⟩ := ih (op.apply s) (n + 1) hn2
      have he : issuedIDs s (op :: ops) =
          toString (wrapInt (n : Int)) :: issuedIDs (op.apply s) ops := by
        simp [issuedIDs, h1, hn]
      rw [he]
      refine ⟨?_, ?_⟩
      · rw [List.length_cons, List.range'_succ, List.map_cons, ← ih1]
      · show (run (op.apply s) ops).nextID = _
        rw [ih2, List.length_cons]
        congr 1
        push_cast
        omega

theorem readDecimal_toString_int (n : Nat) : readDecimal (toString ((n : Nat) : Int)).data = n :=
  readDecimal_toString n

/-- The identifiers `next` hands out from the counter value `n` on, as long as
the last of them is at most `maxInt`: the renderings of `n`, `n + 1`, ... -/
theorem issuedIDs_unwrapped (s : memoryStore) (ops : List Op) (n : Nat)
    (hn : s.nextID = (n : Int))
    (hb : (n : Int) + ((issuedIDs s ops).length : Int) ≤ maxInt + 1) :
    issuedIDs s ops =
      (List.range' n (issuedIDs s ops).length).map (fun k : Nat => toString (k : Int)) := by
  have hn0 : (n : Int) ≤ maxInt ∨ (issuedIDs s ops).length = 0 := by
    rcases Nat.eq_zero_or_pos (issuedIDs s ops).length with h | h
    · exact Or.inr h
    · exact Or.inl (by omega)
  rcases hn0 with hn0 | hn0
  · obtain ⟨h1, _⟩ := issuedIDs_from s ops n (by rw [wrapInt_natCast n hn0]; exact hn)
    generalize (issuedIDs s ops).length = L at h1 hb
    rw [h1]
    refine List.map_congr_left fun k hk => ?_
    have hk2 := (List.mem_range'_1.mp hk).2
    rw [wrapInt_natCast k (by omega)]
  · rw [hn0, List.length_eq_zero.mp hn0]
    rfl

theorem decimals_get (L k : Nat) (h : k < L) :
    ((List.range' 1 L).map (fun k : Nat => toString (k : Int)))[k]? =
      some (toString ((k + 1 : Nat) : Int)) := by
  rw [List.getElem?_map, List.getElem?_range' _ _ h]
  simp [Nat.add_comm]

theorem decimals_nodup (L : Nat) :
    ((List.range' 1 L).map (fun k : Nat => toString (k : Int))).Nodup := by
  refine List.Nodup.map ?_ (List.nodup_range' 1 L)
  intro a b hab
  exact toString_nat_injective a b hab

theorem decimals_increasing (L i j : Nat) (a b : String) (hij : i < j)
    (ha : ((List.range' 1 L).map (fun k : Nat => toString (k : Int)))[i]? = some a)
    (hb : ((List.range' 1 L).map (fun k : Nat => toString (k : Int)))[j]? = some b) :
    readDecimal a.data < readDecimal b.data := by
  have hj : j < L := by
    have := (List.getElem?_eq_some_iff.mp hb).1
    simpa using this
  have hi : i < L := Nat.lt_trans hij hj
  rw [decimals_get L i hi] at ha
  rw [decimals_get L j hj] at hb
  cases ha
  cases hb
  rw [readDecimal_toString_int, readDecimal_toString_int]
  omega

theorem issuedIDs_append (s : memoryStore) (ops1 ops2 : List Op) :
    issuedIDs s (ops1 ++ ops2) = issuedIDs s ops1 ++ issuedIDs (run s ops1) ops2 := by
  induction ops1 generalizing s with
  | nil => rfl
  | cons op ops ih =>
    show (op.issued s).toList ++ issuedIDs (op.apply s) (ops ++ ops2) = _
    rw [ih (op.apply s), ← List.append_assoc]
    rfl

theorem issuedIDs_replicate_next (s : memoryStore) (m : Nat) :
    (issuedIDs s (List.replicate m Op.next)).length = m := by
  induction m generalizing s with
  | zero => rfl
  | succ m ih =>
    rw [List.replicate_succ]
    show ((Op.issued s Op.next).toList ++ issuedIDs (Op.apply s Op.next) _).length = m + 1
    rw [List.length_append, ih]
    exact Nat.add_comm _ _

/-- The store after `m` calls of `next`: only the counter has moved, `m` steps
on with wrap-around. -/
theorem run_replicate_next (s : memoryStore) (m : Nat) (hs : wrapInt s.nextID = s.nextID) :
    run s (List.replicate m Op.next) = { s with nextID := wrapInt (s.nextID + (m : Int)) } := by
  induction m generalizing s with
  | zero =>
    show s = { s with nextID := wrapInt (s.nextID + ((0 : Nat) : Int)) }
    rw [Nat.cast_zero, Int.add_zero, hs]
  | succ m ih =>
    rw [List.replicate_succ]
    show run (Op.apply s Op.next) (List.replicate m Op.next) = _
    rw [ih (Op.apply s Op.next) (by
      show wrapInt (wrapInt (s.nextID + 1)) = wrapInt (s.nextID + 1)
      unfold wrapInt
      omega)]
    show ({ s with nextID := wrapInt (wrapInt (s.nextID + 1) + (m : Int)) } : memoryStore) = _
    have : wrapInt (wrapInt (s.nextID + 1) + (m : Int)) =
        wrapInt (s.nextID + ((m + 1 : Nat) : Int)) := by
      unfold wrapInt
      push_cast
      omega
    rw [this]

/-- C4, as the code has it: on the freshly initialised store, for every sequence
of calls of the store's methods in which `next` hands out at most `2^63 - 1`
identifiers (the counter has not passed `maxInt`), the k-th identifier handed
out (counting from 1, over all the methods that call `next`) is the decimal
rendering of k, so the first is "1"; the identifiers handed out are pairwise
distinct as strings and their numeric values are strictly increasing in the
order of issue; and while fewer than `2^63 - 1` have been handed out, the
identifier a further call of `next` hands out is the rendering of the next
number, which has not been issued before. -/
theorem next_issues_successive_decimals (ops : List Op)
    (hb : ((issuedIDs newMemoryStore ops).length : Int) ≤ maxInt) :
    (∀ k, k < (issuedIDs newMemoryStore ops).length →
        (issuedIDs newMemoryStore ops)[k]? = some (toString ((k + 1 : Nat) : Int))) ∧
      (issuedIDs newMemoryStore ops).Nodup ∧
      (∀ (i j : Nat) (a b : String), i < j → (issuedIDs newMemoryStore ops)[i]? = some a →
        (issuedIDs newMemoryStore ops)[j]? = some b →
          readDecimal a.data < readDecimal b.data) ∧
      (((issuedIDs newMemoryStore ops).length : Int) < maxInt →
        (run newMemoryStore ops).next.2 =
          toString (((issuedIDs newMemoryStore ops).length + 1 : Nat) : Int) ∧
        (run newMemoryStore ops).next.2 ∉ issuedIDs newMemoryStore ops) := by
  have h1 := issuedIDs_unwrapped newMemoryStore ops 1 rfl (by push_cast; omega)
  obtain ⟨_, h2⟩ := issuedIDs_from newMemoryStore ops 1 (by decide)
  generalize hL : (issuedIDs newMemoryStore ops).length = L at h1 h2 hb
  rw [h1]
  refine ⟨fun k hk => decimals_get L k hk, decimals_nodup L,
    fun i j a b hij ha hb => decimals_increasing L i j a b hij ha hb, fun hlt => ?_⟩
  have hnext : (run newMemoryStore ops).next.2 = toString ((L + 1 : Nat) : Int) := by
    rw [memoryStore.next_eq, h2, wrapInt_natCast (1 + L) (by push_cast; omega), Nat.add_comm]
  rw [hnext]
  refine ⟨rfl, fun hmem => ?_⟩
  obtain ⟨k, hk, he⟩ := List.mem_map.mp hmem
  have hk2 := (List.mem_range'_1.mp hk).2
  have := toString_nat_injective k (L + 1) he
  omega

theorem next_issues_successive_decimals_witness :
    ((issuedIDs newMemoryStore
        [.CreateCourse ⟨"1", 7, "Algebra"⟩, .CreateCourse ⟨"9", 7, "Algebra"⟩,
          .GetCourse "1", .SubmitForReview "1"]).length : Int) ≤ maxInt ∧
      (issuedIDs newMemoryStore
        [.CreateCourse ⟨"1", 7, "Algebra"⟩, .CreateCourse ⟨"9", 7, "Algebra"⟩,
          .GetCourse "1", .SubmitForReview "1"]).Nodup ∧
      ∀ k, k < (issuedIDs newMemoryStore
          [.CreateCourse ⟨"1", 7, "Algebra"⟩, .CreateCourse ⟨"9", 7, "Algebra"⟩,
            .GetCourse "1", .SubmitForReview "1"]).length →
        (issuedIDs newMemoryStore
          [.CreateCourse ⟨"1", 7, "Algebra"⟩, .CreateCourse ⟨"9", 7, "Algebra"⟩,
            .GetCourse "1", .SubmitForReview "1"])[k]? = some (toString ((k + 1 : Nat) : Int)) :=
  ⟨by decide,
    (next_issues_successive_decimals _ (by decide)).2.1,
    (next_issues_successive_decimals _ (by decide)).1⟩

/-- C4, counterexample: on the freshly initialised store, in a sequence of
`2^63` calls of `next`, the `2^63`-th identifier handed out is
"-9223372036854775808", not the decimal rendering "9223372036854775808" of
`2^63`: the counter has wrapped around. -/
theorem next_wraps_after_maxInt :
    (issuedIDs newMemoryStore (List.replicate (2 ^ 63) Op.next)).length = 2 ^ 63 ∧
      (issuedIDs newMemoryStore (List.replicate (2 ^ 63) Op.next))[2 ^ 63 - 1]? =
        some "-9223372036854775808" ∧
      toString (((2 ^ 63 - 1 + 1 : Nat)) : Int) = "9223372036854775808" := by
  have hlen := issuedIDs_replicate_next newMemoryStore (2 ^ 63)
  obtain ⟨h1, _⟩ := issuedIDs_from newMemoryStore (List.replicate (2 ^ 63) Op.next) 1
    (by decide)
  rw [hlen] at h1
  refine ⟨hlen, ?_, by decide⟩
  rw [h1, List.getElem?_map, List.getElem?_range' _ _ (by decide)]
  decide

/-! ## Publishing a lesson (C5) -/

theorem GoMap.lookup_of_mem_values {V : Type} (m : GoMap V) (key : V → String)
    (h : ∀ e ∈ m.entries, key e.2 = e.1) (v : V) (hv : v ∈ m.values) :
    m.lookup (key v) = some v := by
  obtain ⟨k, hk⟩ := (GoMap.mem_values_iff _ _).mp hv
  have hid := h (k, v) ((GoMap.lookup_eq_some_iff _ _ _).mp hk)
  simp only at hid
  rw [hid]
  exact hk

theorem GoMap.lookup_none_of_forall {V : Type} (m : GoMap V) (key : V → String)
    (h : ∀ e ∈ m.entries, key e.2 = e.1) (id : String) (hv : ∀ v ∈ m.values, key v ≠ id) :
    m.lookup id = none := by
  cases hl : m.lookup id with
  | none => rfl
  | some v =>
    have hid := h (id, v) ((GoMap.lookup_eq_some_iff _ _ _).mp hl)
    exact absurd hid (hv v ((GoMap.mem_values_iff _ _).mpr ⟨id, hl⟩))

theorem memoryStore.PublishLesson_found (s : memoryStore) (lessonID : String) (l : model.Lesson)
    (h : s.lessons.lookup lessonID = some l) :
    s.PublishLesson lessonID =
      ({ s with lessons := s.lessons.set lessonID { l with Status := some "PUBLISHED" } },
        .ok { l with Status := some "PUBLISHED" }) := by
  simp only [memoryStore.PublishLesson]
  rw [h]
  rfl

theorem memoryStore.PublishLesson_missing (s : memoryStore) (lessonID : String)
    (h : s.lessons.lookup lessonID = none) :
    s.PublishLesson lessonID = (s, .error "lesson not found") := by
  simp only [memoryStore.PublishLesson]
  rw [h]

/-- C5: in every reachable state of the store and for every lesson ID: when no
stored lesson has that ID, `PublishLesson` returns the error "lesson not found";
when a stored lesson has it, `PublishLesson` returns a lesson and no error, the
status of the returned lesson is present and equal to "PUBLISHED", and
`GetLesson` on the same ID in the state after the call returns a lesson whose
status is "PUBLISHED". -/
theorem PublishLesson_sets_status (s : memoryStore) (hr : Reachable s) (lessonID : String) :
    ((∀ l ∈ s.lessons.values, l.ID ≠ lessonID) →
        (s.PublishLesson lessonID).2 = .error "lesson not found") ∧
      (∀ l ∈ s.lessons.values, l.ID = lessonID →
        ∃ l2 : model.Lesson, (s.PublishLesson lessonID).2 = .ok l2 ∧
          l2.Status = some "PUBLISHED" ∧
          ∃ l3 : model.Lesson, (s.PublishLesson lessonID).1.GetLesson lessonID = .ok (some l3) ∧
            l3.Status = some "PUBLISHED") := by
  have hf : ∀ e ∈ s.lessons.entries, e.2.ID = e.1 := fun e he => (hr.filed.2.2.2.1 e he).1
  constructor
  · intro hn
    rw [memoryStore.PublishLesson_missing s lessonID
      (GoMap.lookup_none_of_forall s.lessons (·.ID) hf lessonID hn)]
  · intro l hl hid
    have hl2 : s.lessons.lookup lessonID = some l :=
      hid ▸ GoMap.lookup_of_mem_values s.lessons (·.ID) hf l hl
    rw [memoryStore.PublishLesson_found s lessonID l hl2]
    refine ⟨_, rfl, rfl, { l with Status := some "PUBLISHED" }, ?_, rfl⟩
    simp only [memoryStore.GetLesson, GoMap.lookup_set_self]

theorem PublishLesson_sets_status_witness :
    Reachable (run newMemoryStore
        [.CreateCourse ⟨"1", 7, "Algebra"⟩, .CreateUnit ⟨"1", "Fractions"⟩,
          .CreateLesson ⟨"2", "Halves"⟩]) ∧
      ((run newMemoryStore
        [.CreateCourse ⟨"1", 7, "Algebra"⟩, .CreateUnit ⟨"1", "Fractions"⟩,
          .CreateLesson ⟨"2", "Halves"⟩]).PublishLesson "9").2 = .error "lesson not found" ∧
      ∃ l2 : model.Lesson, ((run newMemoryStore
        [.CreateCourse ⟨"1", 7, "Algebra"⟩, .CreateUnit ⟨"1", "Fractions"⟩,
          .CreateLesson ⟨"2", "Halves"⟩]).PublishLesson "3").2 = .ok l2 ∧
        l2.Status = some "PUBLISHED" ∧
        ∃ l3 : model.Lesson, ((run newMemoryStore
          [.CreateCourse ⟨"1", 7, "Algebra"⟩, .CreateUnit ⟨"1", "Fractions"⟩,
            .CreateLesson ⟨"2", "Halves"⟩]).PublishLesson "3").1.GetLesson "3" = .ok (some l3) ∧
          l3.Status = some "PUBLISHED" :=
  ⟨⟨_, rfl⟩,
    (PublishLesson_sets_status _ ⟨_, rfl⟩ "9").1 (by decide),
    (PublishLesson_sets_status _ ⟨_, rfl⟩ "3").2
      ⟨"3", some ⟨"2", some ⟨"1", some ⟨"1", "Math"⟩, 7, "Algebra"⟩, "Fractions", 0⟩, "Halves", 0, 1,
        none⟩ (by decide) rfl⟩

/-! ## Keys are never removed; approving a submission (C6, C7, C10) -/

theorem KeysKept.refl (s : memoryStore) : KeysKept s s :=
  ⟨fun _ h => h, fun _ h => h, fun _ h => h, fun _ h => h, fun _ h => h⟩

theorem KeysKept.trans {s t u : memoryStore} (h1 : KeysKept s t) (h2 : KeysKept t u) :
    KeysKept s u :=
  ⟨fun k h => h2.1 k (h1.1 k h), fun k h => h2.2.1 k (h1.2.1 k h),
    fun k h => h2.2.2.1 k (h1.2.2.1 k h), fun k h => h2.2.2.2.1 k (h1.2.2.2.1 k h),
    fun k h => h2.2.2.2.2 k (h1.2.2.2.2 k h)⟩

theorem Op.keysKept (s : memoryStore) (op : Op) : KeysKept s (op.apply s) := by
  have hid : ∀ (V : Type) (m : GoMap V), ∀ k ∈ m.keys, k ∈ m.keys := fun _ _ _ h => h
  cases op with
  | CreateCourse input =>
    simp only [Op.apply, memoryStore.CreateCourse, memoryStore.next]
    split
    · exact KeysKept.refl s
    · exact ⟨hid _ _, fun k h => GoMap.mem_keys_set _ _ _ k h, hid _ _, hid _ _, hid _ _⟩
  | CreateUnit input =>
    simp only [Op.apply, memoryStore.CreateUnit, memoryStore.next]
    split
    · exact KeysKept.refl s
    · exact ⟨hid _ _, hid _ _, fun k h => GoMap.mem_keys_set _ _ _ k h, hid _ _, hid _ _⟩
  | CreateLesson input =>
    simp only [Op.apply, memoryStore.CreateLesson, memoryStore.next]
    split
    · exact KeysKept.refl s
    · exact ⟨hid _ _, hid _ _, hid _ _, fun k h => GoMap.mem_keys_set _ _ _ k h, hid _ _⟩
  | SubmitForReview lessonID =>
    exact ⟨hid _ _, hid _ _, hid _ _, hid _ _, fun k h => GoMap.mem_keys_set _ _ _ k h⟩
  | ApproveSubmission ord lessonID =>
    simp only [Op.apply, memoryStore.ApproveSubmission]
    split
    · exact ⟨hid _ _, hid _ _, hid _ _, hid _ _, fun k h => GoMap.mem_keys_set _ _ _ k h⟩
    · exact KeysKept.refl s
  | PublishLesson lessonID =>
    simp only [Op.apply, memoryStore.PublishLesson]
    split
    · exact ⟨hid _ _, hid _ _, hid _ _, fun k h => GoMap.mem_keys_set _ _ _ k h, hid _ _⟩
    · exact KeysKept.refl s
  | _ => exact KeysKept.refl s

theorem run_keysKept (s : memoryStore) (ops : List Op) : KeysKept s (run s ops) := by
  induction ops generalizing s with
  | nil => exact KeysKept.refl s
  | cons op ops ih => exact (Op.keysKept s op).trans (ih (op.apply s))

theorem run_append (s : memoryStore) (ops1 ops2 : List Op) :
    run s (ops1 ++ ops2) = run (run s ops1) ops2 := by
  simp [run, List.foldl_append]

theorem GoMap.len_eq_zero_iff {V : Type} (m : GoMap V) : m.len = 0 ↔ m.entries = [] :=
  List.length_eq_zero

theorem GoMap.range_eq_nil_iff {V : Type} (ord : List Nat) (m : GoMap V) :
    m.range ord = [] ↔ m.entries = [] := by
  constructor
  · intro h
    exact List.length_eq_zero.mp ((GoMap.range_perm ord m).length_eq ▸ (h ▸ rfl))
  · intro h
    exact List.length_eq_zero.mp ((GoMap.range_perm ord m).length_eq.trans (h ▸ rfl))

theorem memoryStore.ApproveSubmission_cases (s : memoryStore) (ord : List Nat)
    (lessonID : String) :
    (s.submissions.len = 0 ∧ (s.ApproveSubmission ord lessonID).2 = .error "no submission") ∨
      (s.submissions.len ≠ 0 ∧ ∃ sub : model.Submission,
        (s.ApproveSubmission ord lessonID).2 = .ok sub ∧ sub.State = "APPROVED") := by
  simp only [memoryStore.ApproveSubmission]
  split
  · next k sub r hr =>
    refine Or.inr ⟨?_, _, rfl, rfl⟩
    intro h0
    have := (GoMap.range_eq_nil_iff ord s.submissions).mpr ((GoMap.len_eq_zero_iff _).mp h0)
    rw [hr] at this
    exact List.noConfusion this
  · next hr =>
    exact Or.inl ⟨(GoMap.len_eq_zero_iff _).mpr ((GoMap.range_eq_nil_iff ord _).mp hr), rfl⟩

theorem submissions_nonempty_after_submit (ops : List Op) (lid : String)
    (h : Op.SubmitForReview lid ∈ ops) : (run newMemoryStore ops).submissions.len ≠ 0 := by
  obtain ⟨pre, post, rfl⟩ := List.append_of_mem h
  rw [run_append]
  have hkey : toString (run newMemoryStore pre).nextID ∈
      (run (run newMemoryStore pre) [Op.SubmitForReview lid]).submissions.keys :=
    GoMap.self_mem_keys_set _ _ _
  have hkept := (run_keysKept (run (run newMemoryStore pre) [Op.SubmitForReview lid]) post).2.2.2.2
    _ hkey
  intro h0
  have hnil := (GoMap.len_eq_zero_iff _).mp h0
  have hrun : run (run newMemoryStore pre) (Op.SubmitForReview lid :: post) =
      run (run (run newMemoryStore pre) [Op.SubmitForReview lid]) post := rfl
  rw [hrun] at hnil
  unfold GoMap.keys at hkept
  rw [hnil] at hkept
  exact List.not_mem_nil _ hkept

/-- C6: in every state of the store (so in every reachable one), for every
range order and every `lessonID` argument, `ApproveSubmission` returns the error
"no submission" if and only if the submission collection is empty, and returns
a submission in state "APPROVED" otherwise; after any sequence of calls on the
fresh store that contains a `SubmitForReview`, `ApproveSubmission` returns a
submission and no error, and the state of the returned submission is
"APPROVED". -/
theorem ApproveSubmission_fails_iff_empty (s : memoryStore) (ord : List Nat) (lessonID : String) :
    ((s.ApproveSubmission ord lessonID).2 = .error "no submission" ↔ s.submissions.len = 0) ∧
      ((∃ e, (s.ApproveSubmission ord lessonID).2 = .error e) ↔ s.submissions.len = 0) ∧
      (s.submissions.len ≠ 0 → ∃ sub : model.Submission,
        (s.ApproveSubmission ord lessonID).2 = .ok sub ∧ sub.State = "APPROVED") ∧
      (∀ (ops : List Op) (lid : String), Op.SubmitForReview lid ∈ ops →
        ∃ sub : model.Submission,
          ((run newMemoryStore ops).ApproveSubmission ord lessonID).2 = .ok sub ∧
            sub.State = "APPROVED") := by
  refine ⟨?_, ?_, ?_, ?_⟩
  · rcases memoryStore.ApproveSubmission_cases s ord lessonID with ⟨h0, he⟩ | ⟨h0, sub, he, _⟩
    · exact ⟨fun _ => h0, fun _ => he⟩
    · rw [he]
      exact ⟨fun h => Except.noConfusion h, fun h => absurd h h0⟩
  · rcases memoryStore.ApproveSubmission_cases s ord lessonID with ⟨h0, he⟩ | ⟨h0, sub, he, _⟩
    · exact ⟨fun _ => h0, fun _ => ⟨_, he⟩⟩
    · rw [he]
      exact ⟨fun ⟨_, h⟩ => Except.noConfusion h, fun h => absurd h h0⟩
  · intro h0
    rcases memoryStore.ApproveSubmission_cases s ord lessonID with ⟨h1, _⟩ | ⟨_, h2⟩
    · exact absurd h1 h0
    · exact h2
  · intro ops lid hmem
    rcases memoryStore.ApproveSubmission_cases (run newMemoryStore ops) ord lessonID with
      ⟨h1, _⟩ | ⟨_, h2⟩
    · exact absurd h1 (submissions_nonempty_after_submit ops lid hmem)
    · exact h2

/-- C7: on the freshly initialised store `ListSubjects` returns, for every range
order, the sequence of length one whose only element is the subject with ID "1"
and name "Math", and the query resolver `Subjects` returns that sequence with a
nil error. -/
theorem ListSubjects_fresh (ord : List Nat) :
    newMemoryStore.ListSubjects ord = [⟨"1", "Math"⟩] ∧
      (newMemoryStore.ListSubjects ord).length = 1 ∧
      queryResolver.Subjects newMemoryStore ord = ([⟨"1", "Math"⟩], none) := by
  have h : newMemoryStore.ListSubjects ord = [⟨"1", "Math"⟩] := by
    cases ord with
    | nil => rfl
    | cons c cs =>
      simp [memoryStore.ListSubjects, GoMap.range, newMemoryStore, GoMap.set, GoMap.empty,
        assocSet, rangeOrder, Nat.mod_one]
  refine ⟨h, by rw [h]; rfl, ?_⟩
  unfold queryResolver.Subjects
  rw [h]

theorem GoMap.lookup_isSome_of_mem_keys {V : Type} (m : GoMap V) (k : String)
    (h : k ∈ m.keys) : ∃ v, m.lookup k = some v := by
  cases hl : m.lookup k with
  | some v => exact ⟨v, rfl⟩
  | none => exact absurd h ((m.lookup_eq_none_iff k).mp hl)

theorem GoMap.mem_keys_of_lookup {V : Type} (m : GoMap V) (k : String) (v : V)
    (h : m.lookup k = some v) : k ∈ m.keys := by
  by_contra hn
  rw [← m.lookup_eq_none_iff k, h] at hn
  exact Option.noConfusion hn

/-- C10: no call of a method of the store removes an entity: for every state,
every method and every input, each key of the subjects, courses, units, lessons
and submissions collections before the call is a key of the same collection
after it, and the same holds from a state to every state that a sequence of
calls reaches from it; so a course or lesson that `GetCourse` or `GetLesson`
finds under an ID is still found under that ID in every later state. -/
theorem no_entity_deleted (s : memoryStore) :
    (∀ op : Op, KeysKept s (op.apply s)) ∧ (∀ ops : List Op, KeysKept s (run s ops)) ∧
      (∀ (ops : List Op) (id : String) (c : model.Course), s.GetCourse id = .ok (some c) →
        ∃ c2 : model.Course, (run s ops).GetCourse id = .ok (some c2)) ∧
      (∀ (ops : List Op) (id : String) (l : model.Lesson), s.GetLesson id = .ok (some l) →
        ∃ l2 : model.Lesson, (run s ops).GetLesson id = .ok (some l2)) := by
  refine ⟨fun op => Op.keysKept s op, fun ops => run_keysKept s ops, ?_, ?_⟩
  · intro ops id c h
    have hl : s.courses.lookup id = some c := by
      unfold memoryStore.GetCourse at h
      split at h
      · exact Option.noConfusion (Except.ok.inj h)
      · next c1 hc1 => rw [hc1, Except.ok.inj h]
    obtain ⟨c2, hc2⟩ := GoMap.lookup_isSome_of_mem_keys _ id
      ((run_keysKept s ops).2.1 id (GoMap.mem_keys_of_lookup _ id c hl))
    exact ⟨c2, by simp only [memoryStore.GetCourse, hc2]⟩
  · intro ops id l h
    have hl : s.lessons.lookup id = some l := Except.ok.inj h
    obtain ⟨l2, hl2⟩ := GoMap.lookup_isSome_of_mem_keys _ id
      ((run_keysKept s ops).2.2.2.1 id (GoMap.mem_keys_of_lookup _ id l hl))
    exact ⟨l2, by simp only [memoryStore.GetLesson, hl2]⟩

/-! ## The calls that return an error (C8) -/

theorem memoryStore.CreateCourse_error (s : memoryStore) (input : model.CreateCourseInput) :
    (errorOf (s.CreateCourse input).2).isSome = (s.subjects.lookup input.SubjectID).isNone := by
  have hn : (s.next.1).subjects = s.subjects := rfl
  simp only [memoryStore.CreateCourse]
  rw [hn]
  cases s.subjects.lookup input.SubjectID <;> rfl

theorem memoryStore.CreateUnit_error (s : memoryStore) (input : model.CreateUnitInput) :
    (errorOf (s.CreateUnit input).2).isSome = (s.courses.lookup input.CourseID).isNone := by
  have hn : (s.next.1).courses = s.courses := rfl
  simp only [memoryStore.CreateUnit]
  rw [hn]
  cases s.courses.lookup input.CourseID <;> rfl

theorem memoryStore.CreateLesson_error (s : memoryStore) (input : model.CreateLessonInput) :
    (errorOf (s.CreateLesson input).2).isSome = (s.units.lookup input.UnitID).isNone := by
  have hn : (s.next.1).units = s.units := rfl
  simp only [memoryStore.CreateLesson]
  rw [hn]
  cases s.units.lookup input.UnitID <;> rfl

theorem memoryStore.PublishLesson_error (s : memoryStore) (lessonID : String) :
    (errorOf (s.PublishLesson lessonID).2).isSome = (s.lessons.lookup lessonID).isNone := by
  simp only [memoryStore.PublishLesson]
  cases s.lessons.lookup lessonID <;> rfl

theorem memoryStore.ApproveSubmission_error (s : memoryStore) (ord : List Nat)
    (lessonID : String) :
    (errorOf (s.ApproveSubmission ord lessonID).2).isSome = (s.submissions.len == 0) := by
  rcases s.ApproveSubmission_cases ord lessonID with ⟨h0, he⟩ | ⟨h0, sub, he, _⟩
  · rw [he, h0]
    rfl
  · rw [he]
    simp [errorOf, h0]

/-- C8, as the code has it: for every state of the store (so for every
reachable one), every method and every input, the call returns an error exactly
in these cases: `CreateCourse`, `CreateUnit` or `CreateLesson` whose parent ID
is absent, `ApproveSubmission` on an empty submission collection, and
`PublishLesson` whose lesson ID is absent; every other call returns no error. -/
theorem error_iff_errorCase (s : memoryStore) (op : Op) :
    (op.error s).isSome = errorCase s op := by
  cases op with
  | CreateCourse input => exact s.CreateCourse_error input
  | CreateUnit input => exact s.CreateUnit_error input
  | CreateLesson input => exact s.CreateLesson_error input
  | ApproveSubmission ord lessonID => exact s.ApproveSubmission_error ord lessonID
  | PublishLesson lessonID => exact s.PublishLesson_error lessonID
  | GetCourse id =>
    simp only [Op.error, memoryStore.GetCourse, errorCase, specErrorCase]
    cases s.courses.lookup id <;> rfl
  | _ => rfl

/-- C8, counterexample: on the freshly initialised store `PublishLesson("7")`
returns the error "lesson not found", and the call is none of the cases in
which the claim allows an error. -/
theorem PublishLesson_error_not_listed :
    Reachable newMemoryStore ∧
      Op.error newMemoryStore (.PublishLesson "7") = some "lesson not found" ∧
      specErrorCase newMemoryStore (.PublishLesson "7") = false :=
  ⟨Reachable.init, by decide, rfl⟩

/-! ## Creating a lesson (C9) -/

theorem memoryStore.CreateLesson_found (s : memoryStore) (input : model.CreateLessonInput)
    (u : model.Unit) (h : s.units.lookup input.UnitID = some u) :
    s.CreateLesson input =
      ({ s with
          nextID := wrapInt (s.nextID + 1)
          lessons := s.lessons.set (toString s.nextID)
            ⟨toString s.nextID, some u, input.Title, 0, 1, none⟩ },
        .ok ⟨toString s.nextID, some u, input.Title, 0, 1, none⟩) := by
  have hs : (s.next.1).units.lookup input.UnitID = some u := h
  simp only [memoryStore.CreateLesson]
  rw [hs]
  rfl

theorem memoryStore.CreateLesson_missing (s : memoryStore) (input : model.CreateLessonInput)
    (h : s.units.lookup input.UnitID = none) :
    s.CreateLesson input = ({ s with nextID := wrapInt (s.nextID + 1) }, .error "unit not found") := by
  have hs : (s.next.1).units.lookup input.UnitID = none := h
  simp only [memoryStore.CreateLesson]
  rw [hs]
  rfl

theorem memoryStore.mem_ListLessons (s : memoryStore) (ord : List Nat) (unitID : String)
    (l : model.Lesson) :
    l ∈ s.ListLessons ord unitID ↔
      l ∈ s.lessons.values ∧ ∃ u, l.Unit = some u ∧ u.ID = unitID := by
  unfold memoryStore.ListLessons
  rw [foldl_collect (fun e : String × model.Lesson =>
    match e.2.Unit with
    | some u => u.ID == unitID
    | none => false) Prod.snd, List.nil_append, List.mem_map]
  unfold GoMap.values
  rw [List.mem_map]
  constructor
  · rintro ⟨e, he, rfl⟩
    rw [List.mem_filter, (GoMap.range_perm ord s.lessons).mem_iff] at he
    refine ⟨⟨e, he.1, rfl⟩, ?_⟩
    have h2 := he.2
    cases hu : e.2.Unit with
    | none => simp [hu] at h2
    | some u => exact ⟨u, rfl, by simpa [hu] using h2⟩
  · rintro ⟨⟨e, he, rfl⟩, u, hu, hid⟩
    refine ⟨e, ?_, rfl⟩
    rw [List.mem_filter, (GoMap.range_perm ord s.lessons).mem_iff]
    exact ⟨he, by simp [hu, hid]⟩

/-- C9: in every reachable state of the store and for every input of
`CreateLesson`: when no stored unit has the ID `UnitID`, the call returns the
error "unit not found" and the lesson collection is unchanged; when a stored
unit has it, the call returns without error a lesson with the input title, a
unit reference to that unit (whose ID is `UnitID`), order 0, version 1 and a
nil status, `GetLesson` on the ID of the lesson returns that lesson, and
`ListLessons(UnitID)` contains it, for every range order. -/
theorem CreateLesson_result (s : memoryStore) (hr : Reachable s)
    (input : model.CreateLessonInput) :
    ((∀ u ∈ s.units.values, u.ID ≠ input.UnitID) →
        (s.CreateLesson input).2 = .error "unit not found" ∧
          (s.CreateLesson input).1.lessons = s.lessons) ∧
      (∀ u ∈ s.units.values, u.ID = input.UnitID →
        ∃ l : model.Lesson, (s.CreateLesson input).2 = .ok l ∧
          l.Title = input.Title ∧ l.Unit = some u ∧
          (∃ u2 : model.Unit, l.Unit = some u2 ∧ u2.ID = input.UnitID) ∧
          l.Order = 0 ∧ l.Version = 1 ∧ l.Status = none ∧
          (s.CreateLesson input).1.GetLesson l.ID = .ok (some l) ∧
          ∀ ord, l ∈ (s.CreateLesson input).1.ListLessons ord input.UnitID) := by
  have hf : ∀ e ∈ s.units.entries, e.2.ID = e.1 := fun e he => (hr.filed.2.2.1 e he).1
  constructor
  · intro hn
    rw [memoryStore.CreateLesson_missing s input
      (GoMap.lookup_none_of_forall s.units (·.ID) hf input.UnitID hn)]
    exact ⟨rfl, rfl⟩
  · intro u hu hid
    have hl : s.units.lookup input.UnitID = some u :=
      hid ▸ GoMap.lookup_of_mem_values s.units (·.ID) hf u hu
    rw [memoryStore.CreateLesson_found s input u hl]
    have hget : (s.lessons.set (toString s.nextID)
        ⟨toString s.nextID, some u, input.Title, 0, 1, none⟩).lookup (toString s.nextID) =
        some ⟨toString s.nextID, some u, input.Title, 0, 1, none⟩ :=
      GoMap.lookup_set_self _ _ _
    refine ⟨_, rfl, rfl, rfl, ⟨u, rfl, hid⟩, rfl, rfl, rfl, ?_, ?_⟩
    · simp only [memoryStore.GetLesson, hget]
    · intro ord
      rw [memoryStore.mem_ListLessons]
      exact ⟨(GoMap.mem_values_iff _ _).mpr ⟨_, hget⟩, u, rfl, hid⟩

theorem CreateLesson_result_witness :
    Reachable (run newMemoryStore
        [.CreateCourse ⟨"1", 7, "Algebra"⟩, .CreateUnit ⟨"1", "Fractions"⟩]) ∧
      ((run newMemoryStore
        [.CreateCourse ⟨"1", 7, "Algebra"⟩, .CreateUnit ⟨"1", "Fractions"⟩]).CreateLesson
          ⟨"5", "Halves"⟩).2 = .error "unit not found" ∧
      ∃ l : model.Lesson, ((run newMemoryStore
        [.CreateCourse ⟨"1", 7, "Algebra"⟩, .CreateUnit ⟨"1", "Fractions"⟩]).CreateLesson
          ⟨"2", "Halves"⟩).2 = .ok l ∧ l.Title = "Halves" ∧ l.Order = 0 ∧ l.Version = 1 ∧
          l.Status = none :=
  ⟨⟨_, rfl⟩,
    ((CreateLesson_result _ ⟨_, rfl⟩ ⟨"5", "Halves"⟩).1 (by decide)).1,
    match (CreateLesson_result _ ⟨_, rfl⟩ ⟨"2", "Halves"⟩).2
      ⟨"2", some ⟨"1", some ⟨"1", "Math"⟩, 7, "Algebra"⟩, "Fractions", 0⟩ (by decide) rfl with
    | ⟨l, h1, h2, _, _, h5, h6, h7, _⟩ => ⟨l, h1, h2, h5, h6, h7⟩⟩

/-! ## Subjects, submissions and content blocks (C11, C12, C13) -/

theorem Op.apply_subjects (s : memoryStore) (op : Op) : (op.apply s).subjects = s.subjects := by
  cases op with
  | CreateCourse input =>
    simp only [Op.apply, memoryStore.CreateCourse, memoryStore.next]
    split <;> rfl
  | CreateUnit input =>
    simp only [Op.apply, memoryStore.CreateUnit, memoryStore.next]
    split <;> rfl
  | CreateLesson input =>
    simp only [Op.apply, memoryStore.CreateLesson, memoryStore.next]
    split <;> rfl
  | ApproveSubmission ord lessonID =>
    simp only [Op.apply, memoryStore.ApproveSubmission]
    split <;> rfl
  | PublishLesson lessonID =>
    simp only [Op.apply, memoryStore.PublishLesson]
    split <;> rfl
  | _ => rfl

theorem run_subjects (s : memoryStore) (ops : List Op) : (run s ops).subjects = s.subjects := by
  induction ops generalizing s with
  | nil => rfl
  | cons op ops ih => exact (ih (op.apply s)).trans (Op.apply_subjects s op)

theorem memoryStore.ListSubjects_seed (s : memoryStore)
    (h : s.subjects = newMemoryStore.subjects) (ord : List Nat) :
    s.ListSubjects ord = [⟨"1", "Math"⟩] := by
  unfold memoryStore.ListSubjects
  rw [h]
  cases ord with
  | nil => rfl
  | cons c cs =>
    simp [GoMap.range, newMemoryStore, GoMap.set, GoMap.empty, assocSet, rangeOrder,
      Nat.mod_one]

/-- C11: subjects are immutable after seeding: no method of the store changes
the subject collection, so after every sequence of calls on the freshly
initialised store the subject collection is the seeded one, and `ListSubjects`
returns, for every range order, exactly the single seeded subject with ID "1"
and name "Math". -/
theorem subjects_immutable (ops : List Op) :
    (run newMemoryStore ops).subjects = newMemoryStore.subjects ∧
      (∀ op : Op, (op.apply (run newMemoryStore ops)).subjects =
        (run newMemoryStore ops).subjects) ∧
      (∀ ord, (run newMemoryStore ops).ListSubjects ord = [⟨"1", "Math"⟩]) :=
  ⟨run_subjects newMemoryStore ops, fun op => Op.apply_subjects _ op,
    fun ord => memoryStore.ListSubjects_seed _ (run_subjects newMemoryStore ops) ord⟩

theorem memoryStore.ListSubmissions_eq (s : memoryStore) (ord : List Nat)
    (state : Option String) :
    s.ListSubmissions ord state = (s.submissions.range ord).map Prod.snd := by
  unfold memoryStore.ListSubmissions
  rw [foldl_collect_all Prod.snd, List.nil_append]

/-- C12: in every reachable state of the store, for every range order and every
value of the optional `state` argument, `ListSubmissions` returns a sequence
without duplicates that is a rearrangement of all the stored submissions, so
its members are exactly the stored submissions; the result is the same for any
two values of `state`, and for any two range orders the results are
rearrangements of each other. -/
theorem ListSubmissions_all (s : memoryStore) (hr : Reachable s) (ord : List Nat)
    (state : Option String) :
    (s.ListSubmissions ord state).Nodup ∧
      (s.ListSubmissions ord state).Perm s.submissions.values ∧
      (∀ sub, sub ∈ s.ListSubmissions ord state ↔ sub ∈ s.submissions.values) ∧
      (∀ state2, s.ListSubmissions ord state2 = s.ListSubmissions ord state) ∧
      (∀ ord2 state2, (s.ListSubmissions ord2 state2).Perm (s.ListSubmissions ord state)) := by
  have hp : ∀ o st, (s.ListSubmissions o st).Perm s.submissions.values := by
    intro o st
    rw [memoryStore.ListSubmissions_eq]
    exact GoMap.range_values_perm o s.submissions
  have hn : s.submissions.values.Nodup :=
    GoMap.values_nodup_of_key s.submissions (·.ID) fun e he => hr.filed.2.2.2.2 e he
  refine ⟨(hp ord state).nodup_iff.mpr hn, hp ord state, fun sub => (hp ord state).mem_iff,
    fun state2 => ?_, fun ord2 state2 => (hp ord2 state2).trans (hp ord state).symm⟩
  rw [memoryStore.ListSubmissions_eq, memoryStore.ListSubmissions_eq]

theorem ListSubmissions_all_witness :
    Reachable (run newMemoryStore [.SubmitForReview "3", .SubmitForReview "3"]) ∧
      ((run newMemoryStore [.SubmitForReview "3", .SubmitForReview "3"]).ListSubmissions [1]
        (some "APPROVED")).Nodup ∧
      ((run newMemoryStore [.SubmitForReview "3", .SubmitForReview "3"]).ListSubmissions [1]
        (some "APPROVED")).Perm
        (run newMemoryStore [.SubmitForReview "3", .SubmitForReview "3"]).submissions.values :=
  ⟨⟨_, rfl⟩,
    (ListSubmissions_all _ ⟨[.SubmitForReview "3", .SubmitForReview "3"], rfl⟩ [1]
      (some "APPROVED")).1,
    (ListSubmissions_all _ ⟨[.SubmitForReview "3", .SubmitForReview "3"], rfl⟩ [1]
      (some "APPROVED")).2.1⟩

/-- C13: for every state of the store, every `lessonID` (stored or not) and
every input, `AddTextBlock`, `AddImageBlock`, `AddAudioBlock` and
`AddVideoBlock` return no error and a block whose ID is the identifier that
`next` hands out in that state, whose content fields are those of the input and
whose order is 0; the state after the call differs from the state before only
in the counter, which `next` has incremented with the wrap-around of `int` (it
is larger by one whenever it was below `maxInt`), so the five collections are
unchanged and `GetLesson(lessonID)` returns the same before and after. -/
theorem AddBlock_passthrough (s : memoryStore) (lessonID : String) :
    (∀ input : model.TextBlockInput,
      s.AddTextBlock lessonID input =
        ({ s with nextID := wrapInt (s.nextID + 1) },
          .ok { ID := s.next.2, Text := input.Text, Order := 0 })) ∧
    (∀ input : model.ImageBlockInput,
      s.AddImageBlock lessonID input =
        ({ s with nextID := wrapInt (s.nextID + 1) },
          .ok { ID := s.next.2, URL := input.URL, Alt := input.Alt, Order := 0 })) ∧
    (∀ input : model.AudioBlockInput,
      s.AddAudioBlock lessonID input =
        ({ s with nextID := wrapInt (s.nextID + 1) },
          .ok { ID := s.next.2, URL := input.URL, DurationSec := input.DurationSec,
                Order := 0 })) ∧
    (∀ input : model.VideoBlockInput,
      s.AddVideoBlock lessonID input =
        ({ s with nextID := wrapInt (s.nextID + 1) },
          .ok { ID := s.next.2, URL := input.URL, DurationSec := input.DurationSec,
                Order := 0 })) ∧
    (∀ op : Op,
      (∃ input, op = .AddTextBlock lessonID input) ∨ (∃ input, op = .AddImageBlock lessonID input) ∨
        (∃ input, op = .AddAudioBlock lessonID input) ∨
        (∃ input, op = .AddVideoBlock lessonID input) →
      op.error s = none ∧
        (op.apply s).subjects = s.subjects ∧ (op.apply s).courses = s.courses ∧
        (op.apply s).units = s.units ∧ (op.apply s).lessons = s.lessons ∧
        (op.apply s).submissions = s.submissions ∧
        (op.apply s).nextID = wrapInt (s.nextID + 1) ∧
        (-2 ^ 63 ≤ s.nextID → s.nextID < maxInt → (op.apply s).nextID = s.nextID + 1) ∧
        (op.apply s).GetLesson lessonID = s.GetLesson lessonID) := by
  refine ⟨fun _ => rfl, fun _ => rfl, fun _ => rfl, fun _ => rfl, ?_⟩
  have hw : -2 ^ 63 ≤ s.nextID → s.nextID < maxInt → wrapInt (s.nextID + 1) = s.nextID + 1 :=
    fun h1 h2 => wrapInt_of_le _ (by omega) (by omega)
  rintro op (⟨input, rfl⟩ | ⟨input, rfl⟩ | ⟨input, rfl⟩ | ⟨input, rfl⟩) <;>
    exact ⟨rfl, rfl, rfl, rfl, rfl, rfl, rfl, hw, rfl⟩

theorem AddBlock_passthrough_witness :
    (Op.AddTextBlock "9" ⟨"hello"⟩).error newMemoryStore = none ∧
      ((Op.AddTextBlock "9" ⟨"hello"⟩).apply newMemoryStore).courses = newMemoryStore.courses ∧
      ((Op.AddTextBlock "9" ⟨"hello"⟩).apply newMemoryStore).nextID = newMemoryStore.nextID + 1 :=
  ⟨((AddBlock_passthrough newMemoryStore "9").2.2.2.2 (.AddTextBlock "9" ⟨"hello"⟩)
      (Or.inl ⟨_, rfl⟩)).1,
    ((AddBlock_passthrough newMemoryStore "9").2.2.2.2 (.AddTextBlock "9" ⟨"hello"⟩)
      (Or.inl ⟨_, rfl⟩)).2.2.1,
    ((AddBlock_passthrough newMemoryStore "9").2.2.2.2 (.AddTextBlock "9" ⟨"hello"⟩)
      (Or.inl ⟨_, rfl⟩)).2.2.2.2.2.2.2.1 (by decide) (by decide)⟩

/-- C13, counterexample: after `2^63 - 2` calls of `next` on the freshly
initialised store the counter holds `maxInt`; `AddTextBlock` succeeds there with
the ID "9223372036854775807" and leaves the counter at `-2^63`, which is not the
counter of the state before plus one. -/
theorem AddBlock_wraps_at_maxInt :
    Reachable (run newMemoryStore (List.replicate (2 ^ 63 - 2) Op.next)) ∧
      (run newMemoryStore (List.replicate (2 ^ 63 - 2) Op.next)).nextID = maxInt ∧
      ((run newMemoryStore (List.replicate (2 ^ 63 - 2) Op.next)).AddTextBlock "9"
        ⟨"hello"⟩).2 = .ok ⟨"9223372036854775807", "hello", 0⟩ ∧
      ((run newMemoryStore (List.replicate (2 ^ 63 - 2) Op.next)).AddTextBlock "9"
        ⟨"hello"⟩).1.nextID = -2 ^ 63 ∧
      ((run newMemoryStore (List.replicate (2 ^ 63 - 2) Op.next)).AddTextBlock "9"
        ⟨"hello"⟩).1.nextID ≠
          (run newMemoryStore (List.replicate (2 ^ 63 - 2) Op.next)).nextID + 1 := by
  refine ⟨⟨_, rfl⟩, ?_⟩
  rw [run_replicate_next _ _ (by decide)]
  have h : wrapInt (newMemoryStore.nextID + ((2 ^ 63 - 2 : Nat) : Int)) = 2 ^ 63 - 1 := by decide
  rw [h]
  refine ⟨by decide, ?_, by decide, by decide⟩
  show Except.ok (⟨toString (2 ^ 63 - 1 : Int), "hello", 0⟩ : model.TextBlock) = _
  have ht : toString (2 ^ 63 - 1 : Int) = "9223372036854775807" := by decide
  rw [ht]

/-! ## Approving and publishing change one entry (C17, C20) -/

theorem GoMap.ext_entries {V : Type} (m1 m2 : GoMap V) (h : m1.entries = m2.entries) :
    m1 = m2 := by
  cases m1
  cases m2
  cases h
  rfl

theorem assocSet_idem {V : Type} (k : String) (v : V) (l : List (String × V)) :
    assocSet k v (assocSet k v l) = assocSet k v l := by
  induction l with
  | nil => simp [assocSet]
  | cons e r ih =>
    obtain ⟨k1, v1⟩ := e
    by_cases hk : k1 = k
    · simp [assocSet, hk]
    · simp [assocSet, hk, ih]

theorem GoMap.set_set_self {V : Type} (m : GoMap V) (k : String) (v : V) :
    (m.set k v).set k v = m.set k v :=
  GoMap.ext_entries _ _ (assocSet_idem k v m.entries)

theorem GoMap.keys_set_of_mem {V : Type} (m : GoMap V) (k : String) (v : V) (h : k ∈ m.keys) :
    (m.set k v).keys = m.keys := by
  unfold GoMap.keys GoMap.set at *
  simp only [assocSet_keys, if_pos h]

theorem GoMap.mem_keys_of_mem_entries {V : Type} (m : GoMap V) (e : String × V)
    (h : e ∈ m.entries) : e.1 ∈ m.keys :=
  List.mem_map.mpr ⟨e, h, rfl⟩

theorem GoMap.range_head_surjective {V : Type} (m : GoMap V) (e : String × V)
    (h : e ∈ m.entries) : ∃ ord r, m.range ord = e :: r := by
  obtain ⟨a, b, hab⟩ := List.append_of_mem h
  have hp : (e :: (a ++ b)).Perm m.entries := by
    rw [hab]
    exact List.perm_middle.symm
  obtain ⟨ord, hord⟩ := rangeOrder_surjective m.entries (e :: (a ++ b)) hp
  exact ⟨ord, a ++ b, hord⟩

theorem memoryStore.ApproveSubmission_head (s : memoryStore) (ord : List Nat)
    (lessonID : String) (k : String) (sub : model.Submission) (r : List (String × model.Submission))
    (h : s.submissions.range ord = (k, sub) :: r) :
    s.ApproveSubmission ord lessonID =
      ({ s with submissions := s.submissions.set k { sub with State := "APPROVED" } },
        .ok { sub with State := "APPROVED" }) := by
  simp only [memoryStore.ApproveSubmission]
  rw [h]

/-- C17: for every state of the store whose submission collection is not empty
(so for every such reachable state), every range order and every `lessonID`,
`ApproveSubmission` picks a stored submission, the first one the range visits,
returns it with state "APPROVED" and with the ID it had, and writes that state
to its entry; the keys of the submission collection, every other submission, the
four other collections and the counter are unchanged. The result does not
depend on `lessonID`, and every stored submission is the one approved under
some range order, whatever the `lessonID`. -/
theorem ApproveSubmission_frame (s : memoryStore) (ord : List Nat) (lessonID : String)
    (hne : s.submissions.len ≠ 0) :
    (∃ (k : String) (sub : model.Submission), (k, sub) ∈ s.submissions.entries ∧
        (s.ApproveSubmission ord lessonID).2 = .ok { sub with State := "APPROVED" } ∧
        sub.ID ∈ s.submissions.values.map (·.ID) ∧
        (s.ApproveSubmission ord lessonID).1.submissions.lookup k =
          some { ID := sub.ID, State := "APPROVED" } ∧
        (∀ k2, k2 ≠ k → (s.ApproveSubmission ord lessonID).1.submissions.lookup k2 =
          s.submissions.lookup k2)) ∧
      (s.ApproveSubmission ord lessonID).1.submissions.keys = s.submissions.keys ∧
      (s.ApproveSubmission ord lessonID).1.subjects = s.subjects ∧
      (s.ApproveSubmission ord lessonID).1.courses = s.courses ∧
      (s.ApproveSubmission ord lessonID).1.units = s.units ∧
      (s.ApproveSubmission ord lessonID).1.lessons = s.lessons ∧
      (s.ApproveSubmission ord lessonID).1.nextID = s.nextID ∧
      (∀ lessonID2, s.ApproveSubmission ord lessonID2 = s.ApproveSubmission ord lessonID) ∧
      (∀ e ∈ s.submissions.entries, ∀ lessonID2, ∃ ord2,
        (s.ApproveSubmission ord2 lessonID2).2 = .ok { e.2 with State := "APPROVED" }) := by
  have hlast : ∀ e ∈ s.submissions.entries, ∀ lessonID2, ∃ ord2,
      (s.ApproveSubmission ord2 lessonID2).2 = .ok { e.2 with State := "APPROVED" } := by
    intro e he lessonID2
    obtain ⟨ord2, r, hr⟩ := GoMap.range_head_surjective s.submissions e he
    exact ⟨ord2, by rw [memoryStore.ApproveSubmission_head s ord2 lessonID2 e.1 e.2 r hr]⟩
  cases hrange : s.submissions.range ord with
  | nil =>
    exact absurd ((GoMap.len_eq_zero_iff _).mpr ((GoMap.range_eq_nil_iff ord _).mp hrange)) hne
  | cons e r =>
    obtain ⟨k, sub⟩ := e
    have hmem : (k, sub) ∈ s.submissions.entries :=
      GoMap.range_head_mem ord s.submissions (k, sub) r hrange
    have hk : k ∈ s.submissions.keys := GoMap.mem_keys_of_mem_entries _ _ hmem
    have hall : ∀ l2, s.ApproveSubmission ord l2 =
        ({ s with submissions := s.submissions.set k { sub with State := "APPROVED" } },
          .ok { sub with State := "APPROVED" }) :=
      fun l2 => memoryStore.ApproveSubmission_head s ord l2 k sub r hrange
    rw [hall lessonID]
    refine ⟨⟨k, sub, hmem, rfl, ?_, GoMap.lookup_set_self _ _ _,
      fun k2 h2 => GoMap.lookup_set_ne _ _ _ _ h2⟩,
      GoMap.keys_set_of_mem _ _ _ hk, rfl, rfl, rfl, rfl, rfl, fun l2 => hall l2, hlast⟩
    exact List.mem_map.mpr ⟨sub, List.mem_map.mpr ⟨(k, sub), hmem, rfl⟩, rfl⟩

theorem ApproveSubmission_frame_witness :
    (run newMemoryStore [.SubmitForReview "3", .SubmitForReview "3"]).submissions.len ≠ 0 ∧
      ((run newMemoryStore [.SubmitForReview "3", .SubmitForReview "3"]).ApproveSubmission [1]
        "8").1.submissions.keys =
        (run newMemoryStore [.SubmitForReview "3", .SubmitForReview "3"]).submissions.keys ∧
      ((run newMemoryStore [.SubmitForReview "3", .SubmitForReview "3"]).ApproveSubmission [1]
        "8").1.nextID =
        (run newMemoryStore [.SubmitForReview "3", .SubmitForReview "3"]).nextID :=
  ⟨by decide,
    (ApproveSubmission_frame _ [1] "8" (by decide)).2.1,
    (ApproveSubmission_frame _ [1] "8" (by decide)).2.2.2.2.2.2.1⟩

/-- C20: for every state of the store and every lesson ID under which a lesson
is stored, `PublishLesson` returns that lesson with its ID, unit, title, order
and version unchanged and its status "PUBLISHED", and stores it under the same
key; every other lesson, the keys of the lesson collection, the four other
collections and the counter are unchanged; a second `PublishLesson` on the same
ID returns the same lesson and leaves the state as it is after the first. -/
theorem PublishLesson_frame_idempotent (s : memoryStore) (lessonID : String) (l : model.Lesson)
    (h : s.lessons.lookup lessonID = some l) :
    (∃ l2 : model.Lesson, (s.PublishLesson lessonID).2 = .ok l2 ∧
        l2.ID = l.ID ∧ l2.Unit = l.Unit ∧ l2.Title = l.Title ∧ l2.Order = l.Order ∧
        l2.Version = l.Version ∧ l2.Status = some "PUBLISHED" ∧
        (s.PublishLesson lessonID).1.lessons.lookup lessonID = some l2 ∧
        (s.PublishLesson lessonID).1.PublishLesson lessonID =
          ((s.PublishLesson lessonID).1, .ok l2)) ∧
      (∀ k, k ≠ lessonID →
        (s.PublishLesson lessonID).1.lessons.lookup k = s.lessons.lookup k) ∧
      (s.PublishLesson lessonID).1.lessons.keys = s.lessons.keys ∧
      (s.PublishLesson lessonID).1.subjects = s.subjects ∧
      (s.PublishLesson lessonID).1.courses = s.courses ∧
      (s.PublishLesson lessonID).1.units = s.units ∧
      (s.PublishLesson lessonID).1.submissions = s.submissions ∧
      (s.PublishLesson lessonID).1.nextID = s.nextID := by
  rw [memoryStore.PublishLesson_found s lessonID l h]
  have hk : lessonID ∈ s.lessons.keys := GoMap.mem_keys_of_lookup _ _ _ h
  refine ⟨⟨{ l with Status := some "PUBLISHED" }, rfl, rfl, rfl, rfl, rfl, rfl, rfl,
    GoMap.lookup_set_self _ _ _, ?_⟩, fun k hk2 => GoMap.lookup_set_ne _ _ _ _ hk2,
    GoMap.keys_set_of_mem _ _ _ hk, rfl, rfl, rfl, rfl, rfl⟩
  rw [memoryStore.PublishLesson_found _ lessonID { l with Status := some "PUBLISHED" }
    (GoMap.lookup_set_self _ _ _)]
  simp only [GoMap.set_set_self]

theorem PublishLesson_frame_idempotent_witness :
    (run newMemoryStore
        [.CreateCourse ⟨"1", 7, "Algebra"⟩, .CreateUnit ⟨"1", "Fractions"⟩,
          .CreateLesson ⟨"2", "Halves"⟩]).lessons.lookup "3" =
        some ⟨"3", some ⟨"2", some ⟨"1", some ⟨"1", "Math"⟩, 7, "Algebra"⟩, "Fractions", 0⟩,
          "Halves", 0, 1, none⟩ ∧
      ((run newMemoryStore
        [.CreateCourse ⟨"1", 7, "Algebra"⟩, .CreateUnit ⟨"1", "Fractions"⟩,
          .CreateLesson ⟨"2", "Halves"⟩]).PublishLesson "3").1.nextID =
        (run newMemoryStore
          [.CreateCourse ⟨"1", 7, "Algebra"⟩, .CreateUnit ⟨"1", "Fractions"⟩,
            .CreateLesson ⟨"2", "Halves"⟩]).nextID :=
  ⟨by decide,
    (PublishLesson_frame_idempotent _ "3"
      ⟨"3", some ⟨"2", some ⟨"1", some ⟨"1", "Math"⟩, 7, "Algebra"⟩, "Fractions", 0⟩,
        "Halves", 0, 1, none⟩ (by decide)).2.2.2.2.2.2.2⟩

/-! ## Issued identifiers are new keys until the counter wraps -/

theorem IssuedBelow.mono {n m : Nat} {k : String} (h : IssuedBelow n k) (hnm : n ≤ m) :
    IssuedBelow m k := by
  obtain ⟨a, ha, hk⟩ := h
  exact ⟨a, Nat.lt_of_lt_of_le ha hnm, hk⟩

theorem IssuedBelow.ne {n : Nat} {k : String} (h : IssuedBelow n k) :
    k ≠ toString (n : Int) := by
  obtain ⟨a, ha, hk⟩ := h
  intro he
  have := toString_nat_injective a n (hk ▸ he)
  omega

theorem GoMap.mem_keys_set_iff {V : Type} (m : GoMap V) (k : String) (v : V) (a : String) :
    a ∈ (m.set k v).keys ↔ a = k ∨ a ∈ m.keys := by
  unfold GoMap.keys GoMap.set
  simp only [assocSet_keys]
  split
  · next h =>
    constructor
    · exact fun ha => Or.inr ha
    · rintro (rfl | ha)
      · exact h
      · exact ha
  · simp only [List.mem_append, List.mem_singleton]
    exact Or.comm

theorem Op.keys_apply (s : memoryStore) (op : Op) :
    KeysGrowBy s (op.apply s) s.courses.keys (op.apply s).courses.keys ∧
      KeysGrowBy s (op.apply s) s.units.keys (op.apply s).units.keys ∧
      KeysGrowBy s (op.apply s) s.lessons.keys (op.apply s).lessons.keys ∧
      KeysGrowBy s (op.apply s) s.submissions.keys (op.apply s).submissions.keys := by
  have hid : ∀ (t : memoryStore) (l : List String), KeysGrowBy s t l l :=
    fun _ _ _ h => Or.inl h
  cases op with
  | CreateCourse input =>
    simp only [Op.apply, memoryStore.CreateCourse, memoryStore.next]
    split
    · exact ⟨hid _ _, hid _ _, hid _ _, hid _ _⟩
    · refine ⟨fun k hk => ?_, hid _ _, hid _ _, hid _ _⟩
      rcases (GoMap.mem_keys_set_iff _ _ _ _).mp hk with h | h
      · exact Or.inr ⟨h, rfl⟩
      · exact Or.inl h
  | CreateUnit input =>
    simp only [Op.apply, memoryStore.CreateUnit, memoryStore.next]
    split
    · exact ⟨hid _ _, hid _ _, hid _ _, hid _ _⟩
    · refine ⟨hid _ _, fun k hk => ?_, hid _ _, hid _ _⟩
      rcases (GoMap.mem_keys_set_iff _ _ _ _).mp hk with h | h
      · exact Or.inr ⟨h, rfl⟩
      · exact Or.inl h
  | CreateLesson input =>
    simp only [Op.apply, memoryStore.CreateLesson, memoryStore.next]
    split
    · exact ⟨hid _ _, hid _ _, hid _ _, hid _ _⟩
    · refine ⟨hid _ _, hid _ _, fun k hk => ?_, hid _ _⟩
      rcases (GoMap.mem_keys_set_iff _ _ _ _).mp hk with h | h
      · exact Or.inr ⟨h, rfl⟩
      · exact Or.inl h
  | SubmitForReview lessonID =>
    refine ⟨hid _ _, hid _ _, hid _ _, fun k hk => ?_⟩
    rcases (GoMap.mem_keys_set_iff _ _ _ _).mp hk with h | h
    · exact Or.inr ⟨h, rfl⟩
    · exact Or.inl h
  | ApproveSubmission ord lessonID =>
    simp only [Op.apply, memoryStore.ApproveSubmission]
    split
    · next k sub r hr =>
      refine ⟨hid _ _, hid _ _, hid _ _, fun a ha => Or.inl ?_⟩
      rcases (GoMap.mem_keys_set_iff _ _ _ _).mp ha with h | h
      · exact h ▸ GoMap.mem_keys_of_mem_entries _ _
          (GoMap.range_head_mem ord s.submissions (k, sub) r hr)
      · exact h
    · exact ⟨hid _ _, hid _ _, hid _ _, hid _ _⟩
  | PublishLesson lessonID =>
    simp only [Op.apply, memoryStore.PublishLesson]
    split
    · next l hl =>
      refine ⟨hid _ _, hid _ _, fun a ha => Or.inl ?_, hid _ _⟩
      rcases (GoMap.mem_keys_set_iff _ _ _ _).mp ha with h | h
      · exact h ▸ GoMap.mem_keys_of_lookup _ _ _ hl
      · exact h
    · exact ⟨hid _ _, hid _ _, hid _ _, hid _ _⟩
  | _ => exact ⟨hid _ _, hid _ _, hid _ _, hid _ _⟩

theorem Op.nextID_apply (s : memoryStore) (op : Op) :
    (op.apply s).nextID = s.nextID ∨ (op.apply s).nextID = wrapInt (s.nextID + 1) := by
  rcases Op.issued_nextID s op with ⟨_, h⟩ | ⟨_, h⟩
  · exact Or.inl h
  · exact Or.inr h

theorem wrapInt_succ_ne (x : Int) : wrapInt (x + 1) ≠ x := by
  unfold wrapInt
  omega

theorem Fresh_newMemoryStore : Fresh newMemoryStore := by
  refine ⟨1, rfl, Nat.le_refl 1, by decide, ?_, ?_, ?_, ?_⟩ <;> intro k hk <;>
    simp [newMemoryStore, GoMap.keys, GoMap.empty] at hk

/-- After a call in a state whose keys render numbers below the counter `n`, the
keys render numbers below `n + 1`, and below `n` when the counter has not moved. -/
theorem IssuedBelow.after_apply (s : memoryStore) (op : Op) (n : Nat) (hn : s.nextID = (n : Int))
    (old new : List String) (hold : ∀ k ∈ old, IssuedBelow n k)
    (hgrow : KeysGrowBy s (op.apply s) old new) :
    (∀ k ∈ new, IssuedBelow (n + 1) k) ∧
      ((op.apply s).nextID = s.nextID → ∀ k ∈ new, IssuedBelow n k) := by
  refine ⟨fun k hk => ?_, fun hsame k hk => ?_⟩
  · rcases hgrow k hk with h | ⟨h, _⟩
    · exact (hold k h).mono (Nat.le_succ n)
    · exact ⟨n, Nat.lt_succ_self n, by rw [h, hn]⟩
  · rcases hgrow k hk with h | ⟨_, h2⟩
    · exact hold k h
    · rw [hsame] at h2
      exact absurd h2.symm (wrapInt_succ_ne s.nextID)

theorem Fresh_apply (s : memoryStore) (op : Op) (h : Fresh s)
    (hb : (op.apply s).nextID = s.nextID ∨ s.nextID < maxInt) : Fresh (op.apply s) := by
  obtain ⟨n, hn, h1, hmax, hc, hu, hl, hs⟩ := h
  obtain ⟨kc, ku, kl, ks⟩ := Op.keys_apply s op
  have ac := IssuedBelow.after_apply s op n hn _ _ hc kc
  have au := IssuedBelow.after_apply s op n hn _ _ hu ku
  have al := IssuedBelow.after_apply s op n hn _ _ hl kl
  have as := IssuedBelow.after_apply s op n hn _ _ hs ks
  by_cases hsame : (op.apply s).nextID = s.nextID
  · exact ⟨n, hsame.trans hn, h1, hmax, ac.2 hsame, au.2 hsame, al.2 hsame, as.2 hsame⟩
  · have hlt : s.nextID < maxInt := hb.resolve_left hsame
    have hnext : (op.apply s).nextID = ((n + 1 : Nat) : Int) := by
      rcases Op.nextID_apply s op with h | h
      · exact absurd h hsame
      · rw [h, hn, wrapInt_of_le _ (by omega) (by rw [hn] at hlt; omega)]
        push_cast
        rfl
    exact ⟨n + 1, hnext, Nat.le_succ_of_le h1, by rw [hn] at hlt; push_cast; omega, ac.1, au.1,
      al.1, as.1⟩

/-- One call of a sequence that keeps the counter at most `maxInt`: the invariant
still holds, and the counter has moved by the number of identifiers handed out. -/
theorem Fresh.afterOp {s : memoryStore} (h : Fresh s) (op : Op) (ops : List Op)
    (hb : s.nextID + ((issuedIDs s (op :: ops)).length : Int) ≤ maxInt) :
    Fresh (op.apply s) ∧
      (op.apply s).nextID + ((issuedIDs (op.apply s) ops).length : Int) =
        s.nextID + ((issuedIDs s (op :: ops)).length : Int) := by
  rcases Op.issued_nextID s op with ⟨h1, h2⟩ | ⟨h1, h2⟩
  · have he : issuedIDs s (op :: ops) = issuedIDs (op.apply s) ops := by
      simp [issuedIDs, h1]
    rw [he, h2]
    exact ⟨Fresh_apply s op h (Or.inl h2), rfl⟩
  · have he : issuedIDs s (op :: ops) = toString s.nextID :: issuedIDs (op.apply s) ops := by
      simp [issuedIDs, h1]
    rw [he, List.length_cons] at hb ⊢
    push_cast at hb ⊢
    have hpos : (1 : Int) ≤ s.nextID := by
      obtain ⟨n, hn, h1n, _⟩ := h
      omega
    have hlt : s.nextID < maxInt := by omega
    have hnext : (op.apply s).nextID = s.nextID + 1 := by
      rw [h2, wrapInt_of_le _ (by omega) (by omega)]
    rw [hnext]
    exact ⟨Fresh_apply s op h (Or.inr hlt), by omega⟩

/-- The invariant holds along a sequence of calls that keeps the counter at most
`maxInt`, and the counter then counts the identifiers handed out. -/
theorem Fresh_run (s : memoryStore) (ops : List Op) (h : Fresh s)
    (hb : s.nextID + ((issuedIDs s ops).length : Int) ≤ maxInt) :
    Fresh (run s ops) ∧ (run s ops).nextID = s.nextID + ((issuedIDs s ops).length : Int) := by
  induction ops generalizing s with
  | nil => exact ⟨h, by simp [run, issuedIDs]⟩
  | cons op ops ih =>
    obtain ⟨hf, he⟩ := h.afterOp op ops hb
    have := ih (op.apply s) hf (by rw [he]; exact hb)
    rw [he] at this
    exact this

theorem Unwrapped.reachable {s : memoryStore} (h : Unwrapped s) : Reachable s := by
  obtain ⟨ops, rfl, _⟩ := h
  exact ⟨ops, rfl⟩

theorem Unwrapped.fresh {s : memoryStore} (h : Unwrapped s) : Fresh s := by
  obtain ⟨ops, rfl, hb⟩ := h
  exact (Fresh_run _ ops Fresh_newMemoryStore (by
    show (1 : Int) + _ ≤ maxInt
    omega)).1

theorem Unwrapped.newStore : Unwrapped newMemoryStore := ⟨[], rfl, by decide⟩

/-! ## Referential integrity (C18) -/

theorem memoryStore.CreateCourse_ok (s : memoryStore) (input : model.CreateCourseInput)
    (c : model.Course) (h : (s.CreateCourse input).2 = .ok c) :
    ∃ subj, s.subjects.lookup input.SubjectID = some subj ∧
      c = ⟨toString s.nextID, some subj, input.Grade, input.Title⟩ := by
  cases hl : s.subjects.lookup input.SubjectID with
  | none =>
    rw [memoryStore.CreateCourse_missing s input hl] at h
    exact Except.noConfusion h
  | some subj =>
    rw [memoryStore.CreateCourse_found s input subj hl] at h
    exact ⟨subj, rfl, (Except.ok.inj h).symm⟩

theorem memoryStore.CreateUnit_found (s : memoryStore) (input : model.CreateUnitInput)
    (c : model.Course) (h : s.courses.lookup input.CourseID = some c) :
    s.CreateUnit input =
      ({ s with
          nextID := wrapInt (s.nextID + 1)
          units := s.units.set (toString s.nextID) ⟨toString s.nextID, some c, input.Title, 0⟩ },
        .ok ⟨toString s.nextID, some c, input.Title, 0⟩) := by
  have hs : (s.next.1).courses.lookup input.CourseID = some c := h
  simp only [memoryStore.CreateUnit]
  rw [hs]
  rfl

theorem memoryStore.CreateUnit_missing (s : memoryStore) (input : model.CreateUnitInput)
    (h : s.courses.lookup input.CourseID = none) :
    s.CreateUnit input = ({ s with nextID := wrapInt (s.nextID + 1) }, .error "course not found") := by
  have hs : (s.next.1).courses.lookup input.CourseID = none := h
  simp only [memoryStore.CreateUnit]
  rw [hs]
  rfl

theorem memoryStore.CreateUnit_ok (s : memoryStore) (input : model.CreateUnitInput)
    (u : model.Unit) (h : (s.CreateUnit input).2 = .ok u) :
    ∃ c, s.courses.lookup input.CourseID = some c ∧
      u = ⟨toString s.nextID, some c, input.Title, 0⟩ := by
  cases hl : s.courses.lookup input.CourseID with
  | none =>
    rw [memoryStore.CreateUnit_missing s input hl] at h
    exact Except.noConfusion h
  | some c =>
    rw [memoryStore.CreateUnit_found s input c hl] at h
    exact ⟨c, rfl, (Except.ok.inj h).symm⟩

theorem memoryStore.CreateLesson_ok (s : memoryStore) (input : model.CreateLessonInput)
    (l : model.Lesson) (h : (s.CreateLesson input).2 = .ok l) :
    ∃ u, s.units.lookup input.UnitID = some u ∧
      l = ⟨toString s.nextID, some u, input.Title, 0, 1, none⟩ := by
  cases hl : s.units.lookup input.UnitID with
  | none =>
    rw [memoryStore.CreateLesson_missing s input hl] at h
    exact Except.noConfusion h
  | some u =>
    rw [memoryStore.CreateLesson_found s input u hl] at h
    exact ⟨u, rfl, (Except.ok.inj h).symm⟩

theorem memoryStore.CreateCourse_failed (s : memoryStore) (input : model.CreateCourseInput)
    (e : String) (h : (s.CreateCourse input).2 = .error e) :
    e = "subject not found" ∧ OnlyCounterAdvanced s (s.CreateCourse input).1 := by
  cases hl : s.subjects.lookup input.SubjectID with
  | none =>
    rw [memoryStore.CreateCourse_missing s input hl] at h ⊢
    exact ⟨(Except.error.inj h).symm, rfl, rfl, rfl, rfl, rfl, rfl⟩
  | some subj =>
    rw [memoryStore.CreateCourse_found s input subj hl] at h
    exact Except.noConfusion h

theorem memoryStore.CreateUnit_failed (s : memoryStore) (input : model.CreateUnitInput)
    (e : String) (h : (s.CreateUnit input).2 = .error e) :
    e = "course not found" ∧ OnlyCounterAdvanced s (s.CreateUnit input).1 := by
  cases hl : s.courses.lookup input.CourseID with
  | none =>
    rw [memoryStore.CreateUnit_missing s input hl] at h ⊢
    exact ⟨(Except.error.inj h).symm, rfl, rfl, rfl, rfl, rfl, rfl⟩
  | some c =>
    rw [memoryStore.CreateUnit_found s input c hl] at h
    exact Except.noConfusion h

theorem memoryStore.CreateLesson_failed (s : memoryStore) (input : model.CreateLessonInput)
    (e : String) (h : (s.CreateLesson input).2 = .error e) :
    e = "unit not found" ∧ OnlyCounterAdvanced s (s.CreateLesson input).1 := by
  cases hl : s.units.lookup input.UnitID with
  | none =>
    rw [memoryStore.CreateLesson_missing s input hl] at h ⊢
    exact ⟨(Except.error.inj h).symm, rfl, rfl, rfl, rfl, rfl, rfl⟩
  | some u =>
    rw [memoryStore.CreateLesson_found s input u hl] at h
    exact Except.noConfusion h

theorem issuedIDs_length_cons (s : memoryStore) (op : Op) (ops : List Op) :
    (issuedIDs (op.apply s) ops).length ≤ (issuedIDs s (op :: ops)).length := by
  show _ ≤ ((op.issued s).toList ++ issuedIDs (op.apply s) ops).length
  rw [List.length_append]
  exact Nat.le_add_left _ _

theorem Unassigned_apply (n : Nat) (t : memoryStore) (op : Op) (m : Nat)
    (hm : t.nextID = (m : Int)) (hnm : n < m) (h : Unassigned (toString (n : Int)) t) :
    Unassigned (toString (n : Int)) (op.apply t) := by
  obtain ⟨kc, ku, kl, ks⟩ := Op.keys_apply t op
  have hne : toString (n : Int) ≠ toString t.nextID := by
    rw [hm]
    intro he
    have := toString_nat_injective n m he
    omega
  have step : ∀ (old new : List String), toString (n : Int) ∉ old →
      KeysGrowBy t (op.apply t) old new → toString (n : Int) ∉ new := by
    intro old new hold hgrow hmem
    rcases hgrow _ hmem with h1 | ⟨h1, _⟩
    · exact hold h1
    · exact hne h1
  exact ⟨step _ _ h.1 kc, step _ _ h.2.1 ku, step _ _ h.2.2.1 kl, step _ _ h.2.2.2 ks⟩

theorem Unassigned_run (n : Nat) (t : memoryStore) (ops : List Op) (hf : Fresh t)
    (hn : (n : Int) < t.nextID) (h : Unassigned (toString (n : Int)) t)
    (hb : t.nextID + ((issuedIDs t ops).length : Int) ≤ maxInt) :
    Unassigned (toString (n : Int)) (run t ops) := by
  induction ops generalizing t with
  | nil => exact h
  | cons op ops ih =>
    obtain ⟨hf2, he⟩ := hf.afterOp op ops hb
    have hlen := issuedIDs_length_cons t op ops
    obtain ⟨m, hm, _⟩ := hf
    refine ih (op.apply t) hf2 (by omega)
      (Unassigned_apply n t op m hm (by omega) h) (by rw [he]; exact hb)

theorem not_mem_issuedIDs (n : Nat) (t : memoryStore) (ops : List Op) (m : Nat)
    (hm : t.nextID = (m : Int)) (hnm : n < m)
    (hb : (m : Int) + ((issuedIDs t ops).length : Int) ≤ maxInt + 1) :
    toString (n : Int) ∉ issuedIDs t ops := by
  rw [issuedIDs_unwrapped t ops m hm hb]
  intro hmem
  obtain ⟨k, hk, he⟩ := List.mem_map.mp hmem
  have hk2 := (List.mem_range'_1.mp hk).1
  have := toString_nat_injective k n he
  omega

/-- After a failed create in a state reached before the counter has wrapped
around, and as long as the counter stays at most `maxInt`: the consumed
identifier is not handed out again and is no key of the four collections, and
the counter is at least two above the value issued before the failed call. -/
theorem Fresh.after_failed_create {s t : memoryStore} (hf : Fresh s)
    (h : OnlyCounterAdvanced s t) (ops : List Op)
    (hb : s.nextID + 1 + ((issuedIDs t ops).length : Int) ≤ maxInt) :
    toString s.nextID ∉ issuedIDs t ops ∧ Unassigned (toString s.nextID) (run t ops) ∧
      (s.nextID - 1) + 2 ≤ (run t ops).nextID := by
  obtain ⟨n, hn, h1n, hmax, hc, hu, hl, hs⟩ := hf
  obtain ⟨_, e2, e3, e4, e5, e6⟩ := h
  have hm : t.nextID = ((n + 1 : Nat) : Int) := by
    rw [e6, hn, wrapInt_of_le _ (by omega) (by omega)]
    push_cast
    rfl
  have hft : Fresh t := by
    refine ⟨n + 1, hm, Nat.le_succ_of_le h1n, by push_cast; omega, ?_, ?_, ?_, ?_⟩
    · rw [e2]
      exact fun k hk => (hc k hk).mono (Nat.le_succ n)
    · rw [e3]
      exact fun k hk => (hu k hk).mono (Nat.le_succ n)
    · rw [e4]
      exact fun k hk => (hl k hk).mono (Nat.le_succ n)
    · rw [e5]
      exact fun k hk => (hs k hk).mono (Nat.le_succ n)
  have hun : Unassigned (toString (n : Int)) t := by
    refine ⟨?_, ?_, ?_, ?_⟩
    · rw [e2]
      exact fun hk => (hc _ hk).ne rfl
    · rw [e3]
      exact fun hk => (hu _ hk).ne rfl
    · rw [e4]
      exact fun hk => (hl _ hk).ne rfl
    · rw [e5]
      exact fun hk => (hs _ hk).ne rfl
  have hbt : t.nextID + ((issuedIDs t ops).length : Int) ≤ maxInt := by
    rw [hm]
    push_cast
    omega
  rw [hn]
  refine ⟨not_mem_issuedIDs n t ops (n + 1) hm (Nat.lt_succ_self n) (by push_cast; omega),
    Unassigned_run n t ops hft (by rw [hm]; push_cast; omega) hun hbt, ?_⟩
  rw [(Fresh_run t ops hft hbt).2, hm]
  push_cast
  omega

/-- C19, as the code has it: a failed create still consumes an identifier. For
every state of the store, a `CreateCourse`, `CreateUnit` or `CreateLesson` call
that returns an error returns the not-found error of its kind, has obtained the
identifier `next` hands out in that state, and leaves the five collections
unchanged while the counter has been incremented, by exactly one when it was
below `maxInt`. When the state has been reached before the counter has wrapped
around, and for as long as the counter stays at most `maxInt` afterwards, the
identifier so consumed is never handed out by `next` again and is never a key of
the courses, units, lessons or submissions collection, it is not the ID of a
stored subject either unless it is "1" (the literal ID of the seeded subject,
consumed when the failed call is the first to take an identifier), and every
later successful create returns an entity whose ID is the rendering of a
counter value at least two above the value issued before the failed call. -/
theorem failed_create_consumes_id (s : memoryStore) :
    (∀ input e, (s.CreateCourse input).2 = .error e →
      e = "subject not found" ∧ Op.issued s (.CreateCourse input) = some (toString s.nextID) ∧
        OnlyCounterAdvanced s (s.CreateCourse input).1) ∧
    (∀ input e, (s.CreateUnit input).2 = .error e →
      e = "course not found" ∧ Op.issued s (.CreateUnit input) = some (toString s.nextID) ∧
        OnlyCounterAdvanced s (s.CreateUnit input).1) ∧
    (∀ input e, (s.CreateLesson input).2 = .error e →
      e = "unit not found" ∧ Op.issued s (.CreateLesson input) = some (toString s.nextID) ∧
        OnlyCounterAdvanced s (s.CreateLesson input).1) ∧
    (∀ t, OnlyCounterAdvanced s t → -2 ^ 63 ≤ s.nextID → s.nextID < maxInt →
      t.nextID = s.nextID + 1) ∧
    (Unwrapped s → ∀ t, OnlyCounterAdvanced s t → ∀ ops : List Op,
      s.nextID + 1 + ((issuedIDs t ops).length : Int) ≤ maxInt →
      toString s.nextID ∉ issuedIDs t ops ∧
      Unassigned (toString s.nextID) (run t ops) ∧
      (1 < s.nextID → ∀ subj ∈ (run t ops).subjects.values, subj.ID ≠ toString s.nextID) ∧
      (∀ input c, ((run t ops).CreateCourse input).2 = .ok c →
        c.ID = toString (run t ops).nextID ∧ (s.nextID - 1) + 2 ≤ (run t ops).nextID) ∧
      (∀ input u, ((run t ops).CreateUnit input).2 = .ok u →
        u.ID = toString (run t ops).nextID ∧ (s.nextID - 1) + 2 ≤ (run t ops).nextID) ∧
      (∀ input l, ((run t ops).CreateLesson input).2 = .ok l →
        l.ID = toString (run t ops).nextID ∧ (s.nextID - 1) + 2 ≤ (run t ops).nextID)) := by
  refine ⟨fun input e h => ?_, fun input e h => ?_, fun input e h => ?_, ?_, ?_⟩
  · exact ⟨(s.CreateCourse_failed input e h).1, rfl, (s.CreateCourse_failed input e h).2⟩
  · exact ⟨(s.CreateUnit_failed input e h).1, rfl, (s.CreateUnit_failed input e h).2⟩
  · exact ⟨(s.CreateLesson_failed input e h).1, rfl, (s.CreateLesson_failed input e h).2⟩
  · intro t ht h1 h2
    rw [ht.2.2.2.2.2, wrapInt_of_le _ (by omega) (by omega)]
  · intro hu t ht ops hb
    obtain ⟨h1, h2, h3⟩ := hu.fresh.after_failed_create ht ops hb
    refine ⟨h1, h2, fun hgt subj hsubj => ?_, fun input c hc => ?_, fun input u hu => ?_,
      fun input l hl => ?_⟩
    · obtain ⟨n, hn, _⟩ := hu.fresh
      obtain ⟨ops0, rfl, _⟩ := hu
      rw [run_subjects, ht.1, run_subjects] at hsubj
      have hid : subj = ⟨"1", "Math"⟩ := by
        simpa [newMemoryStore, GoMap.values, GoMap.set, GoMap.empty, assocSet] using hsubj
      rw [hid, hn]
      intro he
      have := toString_nat_injective 1 n he
      rw [hn] at hgt
      omega
    · obtain ⟨_, _, rfl⟩ := (run t ops).CreateCourse_ok input c hc
      exact ⟨rfl, h3⟩
    · obtain ⟨_, _, rfl⟩ := (run t ops).CreateUnit_ok input u hu
      exact ⟨rfl, h3⟩
    · obtain ⟨_, _, rfl⟩ := (run t ops).CreateLesson_ok input l hl
      exact ⟨rfl, h3⟩

theorem failed_create_consumes_id_witness :
    Unwrapped (run newMemoryStore [.CreateCourse ⟨"1", 7, "Algebra"⟩]) ∧
      ((run newMemoryStore [.CreateCourse ⟨"1", 7, "Algebra"⟩]).CreateLesson
        ⟨"7", "Halves"⟩).2 = .error "unit not found" ∧
      OnlyCounterAdvanced (run newMemoryStore [.CreateCourse ⟨"1", 7, "Algebra"⟩])
        ((run newMemoryStore [.CreateCourse ⟨"1", 7, "Algebra"⟩]).CreateLesson
          ⟨"7", "Halves"⟩).1 ∧
      Unassigned (toString (run newMemoryStore [.CreateCourse ⟨"1", 7, "Algebra"⟩]).nextID)
        (run ((run newMemoryStore [.CreateCourse ⟨"1", 7, "Algebra"⟩]).CreateLesson
          ⟨"7", "Halves"⟩).1 [.CreateCourse ⟨"1", 8, "Geometry"⟩]) :=
  ⟨⟨_, rfl, by decide⟩, rfl,
    ((failed_create_consumes_id (run newMemoryStore [.CreateCourse ⟨"1", 7, "Algebra"⟩])).2.2.1
      ⟨"7", "Halves"⟩ "unit not found" rfl).2.2,
    ((failed_create_consumes_id (run newMemoryStore [.CreateCourse ⟨"1", 7, "Algebra"⟩])).2.2.2.2
      ⟨[.CreateCourse ⟨"1", 7, "Algebra"⟩], rfl, by decide⟩ _
      (((failed_create_consumes_id (run newMemoryStore [.CreateCourse ⟨"1", 7, "Algebra"⟩])).2.2.1
        ⟨"7", "Halves"⟩ "unit not found" rfl).2.2)
      [.CreateCourse ⟨"1", 8, "Geometry"⟩] (by decide)).2.1⟩

/-- The store after a failed `CreateCourse` on the fresh store and `2^64 - 1`
calls of `next`: the counter is back at 1 and nothing is stored but the seeded
subject. -/
theorem run_until_consumed_id_repeats :
    run newMemoryStore
        ([.CreateCourse ⟨"2", 7, "Algebra"⟩] ++ List.replicate (2 ^ 64 - 1) Op.next) =
      { run newMemoryStore [.CreateCourse ⟨"2", 7, "Algebra"⟩] with nextID := 1 } := by
  rw [run_append, run_replicate_next _ _ (by decide)]
  have h : wrapInt ((run newMemoryStore [.CreateCourse ⟨"2", 7, "Algebra"⟩]).nextID +
      ((2 ^ 64 - 1 : Nat) : Int)) = 1 := by decide
  rw [h]

/-- C19, counterexample: on the freshly initialised store a `CreateCourse` with
the unknown subject "2" fails and consumes the identifier "1", which is the ID
of a stored entity, the seeded subject; and after `2^64 - 1` further calls of
`next` the counter has come round, and a `CreateCourse` with the seeded subject
succeeds and assigns the consumed identifier "1" to the new course. -/
theorem consumed_id_is_assigned :
    (newMemoryStore.CreateCourse ⟨"2", 7, "Algebra"⟩).2 = .error "subject not found" ∧
      Op.issued newMemoryStore (.CreateCourse ⟨"2", 7, "Algebra"⟩) = some "1" ∧
      (⟨"1", "Math"⟩ : model.Subject) ∈
        (newMemoryStore.CreateCourse ⟨"2", 7, "Algebra"⟩).1.subjects.values ∧
      ((run (newMemoryStore.CreateCourse ⟨"2", 7, "Algebra"⟩).1
          (List.replicate (2 ^ 64 - 1) Op.next)).CreateCourse ⟨"1", 7, "Algebra"⟩).2 =
        .ok ⟨"1", some ⟨"1", "Math"⟩, 7, "Algebra"⟩ := by
  refine ⟨rfl, by decide, by decide, ?_⟩
  have h := run_until_consumed_id_repeats
  rw [run_append] at h
  have h2 : run newMemoryStore [.CreateCourse ⟨"2", 7, "Algebra"⟩] =
      (newMemoryStore.CreateCourse ⟨"2", 7, "Algebra"⟩).1 := rfl
  rw [h2] at h
  rw [h]
  rfl

/-! ## The liveness handler (C15) -/

/-- C15, as the code has it: the handler registered at `/health` answers every
request, whatever its method, URL, headers and body, with the status 200; the
body of the answer is exactly the two bytes of "ok" (0x6F, 0x6B) for every
request whose method is not `HEAD`, and is empty for a `HEAD` request. -/
theorem healthHandler_ok (r : http.Request) :
    (serveHealth r).status = 200 ∧
      (r.Method ≠ "HEAD" →
        (serveHealth r).body = bytesOf "ok" ∧ (serveHealth r).body = [0x6F, 0x6B] ∧
          (serveHealth r).body.length = 2) ∧
      (r.Method = "HEAD" → (serveHealth r).body = []) := by
  refine ⟨?_, fun h => ?_, fun h => ?_⟩
  · by_cases h : r.Method = "HEAD" <;>
      simp [serveHealth, healthHandler, http.ResponseWriter.Write,
        http.ResponseWriter.WriteHeader, http.ResponseWriter.fresh, http.StatusOK,
        http.bodyAllowedForStatus, h]
  · have hb : (serveHealth r).body = bytesOf "ok" := by
      simp [serveHealth, healthHandler, http.ResponseWriter.Write,
        http.ResponseWriter.WriteHeader, http.ResponseWriter.fresh, http.StatusOK,
        http.bodyAllowedForStatus, h]
    rw [hb]
    exact ⟨rfl, by decide, by decide⟩
  · simp [serveHealth, healthHandler, http.ResponseWriter.Write,
      http.ResponseWriter.WriteHeader, http.ResponseWriter.fresh, http.StatusOK,
      http.bodyAllowedForStatus, h]

theorem healthHandler_ok_witness :
    (http.Request.mk "GET" "/health" [] []).Method ≠ "HEAD" ∧
      (serveHealth ⟨"GET", "/health", [], []⟩).status = 200 ∧
      (serveHealth ⟨"GET", "/health", [], []⟩).body = [0x6F, 0x6B] :=
  ⟨by decide, (healthHandler_ok ⟨"GET", "/health", [], []⟩).1,
    ((healthHandler_ok ⟨"GET", "/health", [], []⟩).2.1 (by decide)).2.1⟩

/-- C15, counterexample: the answer to the request `HEAD /health` has the status
200 and an empty body, not the two bytes of "ok". -/
theorem health_HEAD_has_no_body :
    (serveHealth ⟨"HEAD", "/health", [], []⟩).status = 200 ∧
      (serveHealth ⟨"HEAD", "/health", [], []⟩).body = [] ∧
      (serveHealth ⟨"HEAD", "/health", [], []⟩).body ≠ bytesOf "ok" := by
  decide

/-! ## The lock discipline (C14) -/

theorem unguarded_nextActions : unguarded false nextActions = [] := rfl

theorem conflict_unguarded (a b : Action) (ra rb : List Action) (ha hb : Bool)
    (hc : conflict a b = true) (h1 : unguarded ha (a :: ra) = [])
    (h2 : unguarded hb (b :: rb) = []) : ha = true ∧ hb = true := by
  cases a <;> cases b <;> simp [conflict] at hc <;>
    cases ha <;> cases hb <;> simp [unguarded] at h1 h2 ⊢

theorem anyConflict_spec (l : List (Option Action)) (h : anyConflict l = true) :
    ∃ (i j : Nat) (a b : Action), i < j ∧ l[i]? = some (some a) ∧ l[j]? = some (some b) ∧
      conflict a b = true := by
  induction l with
  | nil => simp [anyConflict] at h
  | cons x t ih =>
    simp only [anyConflict, Bool.or_eq_true, List.any_eq_true] at h
    rcases h with ⟨y, hy, hxy⟩ | h
    · obtain ⟨j, hj⟩ := List.getElem?_of_mem hy
      cases x with
      | none => simp at hxy
      | some a =>
        cases y with
        | none => simp at hxy
        | some b =>
          exact ⟨0, j + 1, a, b, Nat.succ_pos j, by simp, by simpa using hj, by simpa using hxy⟩
    · obtain ⟨i, j, a, b, hij, hi, hj, hc⟩ := ih h
      exact ⟨i + 1, j + 1, a, b, Nat.succ_lt_succ hij, by simpa using hi, by simpa using hj, hc⟩

theorem Config.Guarded.no_race {c : Config} (h : c.Guarded) : c.race = false := by
  by_contra hr
  have hr2 : anyConflict (c.threads.map List.head?) = true := by
    simpa [Config.race] using hr
  obtain ⟨i, j, a, b, hij, hi, hj, hc⟩ := anyConflict_spec _ hr2
  rw [List.getElem?_map] at hi hj
  cases hti : c.threads[i]? with
  | none => simp [hti] at hi
  | some ti =>
    cases htj : c.threads[j]? with
    | none => simp [htj] at hj
    | some tj =>
      rw [hti] at hi
      rw [htj] at hj
      cases ti with
      | nil => simp at hi
      | cons a2 ra =>
        cases tj with
        | nil => simp at hj
        | cons b2 rb =>
          have ha : a2 = a := by simpa using hi
          have hb : b2 = b := by simpa using hj
          subst ha
          subst hb
          have hg := conflict_unguarded a2 b2 ra rb _ _ hc (h i _ hti) (h j _ htj)
          have h1 : c.writer = some i := of_decide_eq_true hg.1
          have h2 : c.writer = some j := of_decide_eq_true hg.2
          rw [h1] at h2
          have := Option.some.inj h2
          omega

theorem Config.Guarded.start (threads : List (List Action))
    (h : ∀ t ∈ threads, unguarded false t = []) : (Config.start threads).Guarded := by
  intro i t ht
  have hm : t ∈ threads := List.mem_iff_getElem?.mpr ⟨i, ht⟩
  simpa [Config.start] using h t hm

theorem Config.Guarded.step {c c2 : Config} (i : Nat) (h : c.Guarded)
    (hs : c.step i = some c2) : c2.Guarded := by
  unfold Config.step at hs
  cases hti : c.threads[i]? with
  | none => simp [hti] at hs
  | some ti =>
    cases ti with
    | nil => simp [hti] at hs
    | cons a rest =>
      have hi := h i _ hti
      have hlt : i < c.threads.length := (List.getElem?_eq_some_iff.mp hti).1
      have key : ∀ (w : Option Nat) (rd : List Nat),
          unguarded (decide (w = some i)) rest = [] →
          (∀ j, j ≠ i → decide (w = some j) = decide (c.writer = some j)) →
          Config.Guarded { writer := w, readers := rd, threads := c.threads.set i rest } := by
        intro w rd hrest hother j t ht
        by_cases hji : j = i
        · subst hji
          have : t = rest := by
            rw [List.getElem?_set_self hlt] at ht
            exact (Option.some.inj ht).symm
          subst this
          exact hrest
        · have ht2 : c.threads[j]? = some t := by
            rw [List.getElem?_set_ne (fun he => hji he.symm)] at ht
            exact ht
          show unguarded (decide (w = some j)) t = []
          rw [hother j hji]
          exact h j t ht2
      simp only [hti] at hs
      cases a with
      | Lock =>
        simp only at hs
        split at hs
        · next hw =>
          cases hs
          have hw1 : c.writer = none := hw.1
          rw [hw1] at hi
          refine key (some i) c.readers (by simpa [unguarded] using hi) fun j hji => ?_
          rw [hw1]
          simp [Ne.symm hji]
        · exact Option.noConfusion hs
      | Unlock =>
        simp only at hs
        split at hs
        · next hw =>
          cases hs
          rw [hw] at hi
          refine key none c.readers (by simpa [unguarded] using hi) fun j hji => ?_
          rw [hw]
          simp [Ne.symm hji]
        · exact Option.noConfusion hs
      | RLock =>
        simp only at hs
        split at hs
        · cases hs
          exact key c.writer _ (by simpa [unguarded] using hi) fun _ _ => rfl
        · exact Option.noConfusion hs
      | RUnlock =>
        simp only at hs
        split at hs
        · cases hs
          exact key c.writer _ (by simpa [unguarded] using hi) fun _ _ => rfl
        · exact Option.noConfusion hs
      | read v =>
        cases hs
        refine key c.writer _ ?_ fun _ _ => rfl
        cases hd : decide (c.writer = some i) <;> simp [hd, unguarded] at hi ⊢
        exact hi
      | write v =>
        cases hs
        refine key c.writer _ ?_ fun _ _ => rfl
        cases hd : decide (c.writer = some i) <;> simp [hd, unguarded] at hi ⊢
        exact hi

theorem Config.Guarded.run {c c2 : Config} (sched : List Nat) (h : c.Guarded)
    (hs : c.run sched = some c2) : c2.Guarded := by
  induction sched generalizing c with
  | nil =>
    cases hs
    exact h
  | cons i sched ih =>
    unfold Config.run at hs
    cases hst : c.step i with
    | none => simp [hst] at hs
    | some c1 =>
      simp only [hst] at hs
      exact ih (h.step i hst) hs

/-- Calls that hold the exclusive lock at each of their reads and writes never
race, however they are scheduled. -/
theorem guarded_calls_never_race (threads : List (List Action))
    (h : ∀ t ∈ threads, unguarded false t = []) (sched : List Nat) (c : Config)
    (hs : (Config.start threads).run sched = some c) : c.race = false :=
  ((Config.Guarded.start threads h).run sched hs).no_race

/-- Any number of concurrent calls of `next` never race: the counter is only
touched between `Lock` and `Unlock`. -/
theorem concurrent_next_never_race (n : Nat) (sched : List Nat) (c : Config)
    (hs : (Config.start (List.replicate n nextActions)).run sched = some c) :
    c.race = false := by
  refine guarded_calls_never_race _ (fun t ht => ?_) sched c hs
  rw [List.eq_of_mem_replicate ht]
  rfl

/-- Each creating or mutating method reads or writes a collection while it does
not hold the exclusive lock, in every state and for every input. -/
theorem mutations_unguarded (s : memoryStore) :
    (∀ input, unguarded false (Op.actions s (.CreateCourse input)) ≠ []) ∧
      (∀ input, unguarded false (Op.actions s (.CreateUnit input)) ≠ []) ∧
      (∀ input, unguarded false (Op.actions s (.CreateLesson input)) ≠ []) ∧
      (∀ lessonID, unguarded false (Op.actions s (.SubmitForReview lessonID)) ≠ []) ∧
      (∀ ord lessonID, unguarded false (Op.actions s (.ApproveSubmission ord lessonID)) ≠ []) ∧
      (∀ lessonID, unguarded false (Op.actions s (.PublishLesson lessonID)) ≠ []) := by
  refine ⟨fun input => ?_, fun input => ?_, fun input => ?_, fun lessonID => ?_,
    fun ord lessonID => ?_, fun lessonID => ?_⟩ <;>
    simp [Op.actions, nextActions, unguarded]

/-- C14, evaluated on the code: a `CreateCourse` on the fresh store with the
seeded subject reads the subjects map and writes the courses map after `next`
has released the mutex, and two such calls running concurrently reach, after
each has taken its identifier, a state in which both are about to write the
courses map with the mutex free: a data race on the map. -/
theorem concurrent_CreateCourse_race :
    unguarded false (Op.actions newMemoryStore (.CreateCourse ⟨"1", 7, "Algebra"⟩)) =
        [.read .subjects, .write .courses] ∧
      ((Config.start [Op.actions newMemoryStore (.CreateCourse ⟨"1", 7, "Algebra"⟩),
          Op.actions newMemoryStore (.CreateCourse ⟨"1", 8, "Geometry"⟩)]).run
        [0, 0, 0, 0, 0, 1, 1, 1, 1, 1]) =
        some { writer := none, readers := [],
               threads := [[.write .courses], [.write .courses]] } ∧
      Config.race { writer := none, readers := [],
                    threads := [[.write .courses], [.write .courses]] } = true := by
  decide

end graph
